import Mathlib

/-!
# drsLog: trigger configuration, acquisition loop and event encoder

A shallow embedding of `src/drsLog.cpp` (a read-out utility for daisy-chained
DRS4 evaluation boards) together with theorems about it.

Conventions of the embedding

* Finite `float` and `double` values are rationals (`ℚ`). In `SaveWaveforms`
  and `ReadWaveforms` every arithmetic operation on them is rounded to its
  format (binary32 or binary64, round to nearest, ties to even, with gradual
  underflow), and an operation whose result is not finite yields `none`.
  Evaluation in the type of the operands is assumed (no excess precision, no
  contraction). The element types of `m_waveform` and `m_inputRange`,
  declared in `drsLog.h`, are parameters. The trigger delay of `setTrigger`
  is kept over exact rationals.
* `int` quantities are `Int` or `Nat`; every value the theorems rely on is far
  below `2 ^ 31`, except the event serial, whose increment wraps explicitly.
* The vendor library (`DRS`, `DRSBoard`) is an oracle: a board is a record of
  the answers its getters give, and calls made on a board are logged.
* Loops that the code may run forever (the trigger wait, the retry of spurious
  events) take a fuel argument and answer `none` when it runs out.
-/

namespace DrsLog

/-! ## Compile-time configuration (lines 17, 41-49) -/

/-- Number of boards the global arrays are dimensioned for: `MAX_N_BOARDS`. -/
def MAX_N_BOARDS : Nat := 4

/-- Centre of the input range in volts: `RANGECENTER`. -/
def RANGECENTER : ℚ := 45 / 100

/-- Sampling speed in GS/s: `SAMPLESPEED`. -/
def SAMPLESPEED : ℚ := 5

/-- Number of seconds after which the run ends: `MAXTIME`. -/
def MAXTIME : Int := 5

/-- Time resolution in ns: `timeResolution = 1.0 / SAMPLESPEED`. -/
def timeResolution : ℚ := 1 / SAMPLESPEED

/-- Length of the sample window in ns: `sampleWindow = timeResolution * 1024`. -/
def sampleWindow : ℚ := timeResolution * 1024

/-! ## Floating-point arithmetic -/

/-- A binary floating-point format: the precision in bits and the largest
exponent. -/
structure FloatFormat where
  prec : Nat
  emax : Int

/-- The format of `float`. -/
def binary32 : FloatFormat := { prec := 24, emax := 127 }

/-- The format of `double`. -/
def binary64 : FloatFormat := { prec := 53, emax := 1023 }

/-- The smallest exponent of a normal number. -/
def FloatFormat.emin (f : FloatFormat) : Int := 1 - f.emax

/-- The largest finite number of the format. -/
def FloatFormat.maxFinite (f : FloatFormat) : ℚ :=
  (2 - 2 ^ (1 - (f.prec : Int))) * 2 ^ f.emax

/-- Rounding of a rational to the nearest integer, a tie going to the even
one. -/
def roundHalfEven (y : ℚ) : Int :=
  if y - ⌊y⌋ < 1 / 2 then ⌊y⌋
  else if 1 / 2 < y - ⌊y⌋ then ⌊y⌋ + 1
  else if ⌊y⌋ % 2 = 0 then ⌊y⌋ else ⌊y⌋ + 1

/-- Exponent of the unit in the last place of the numbers of the binade of
`x`; below the normal range it stays at its smallest value. -/
def FloatFormat.ulpExp (f : FloatFormat) (x : ℚ) : Int :=
  max (Int.log 2 |x|) f.emin - ((f.prec : Int) - 1)

/-- The number of the format nearest to `x`, were the exponent unbounded
above. -/
def FloatFormat.nearest (f : FloatFormat) (x : ℚ) : ℚ :=
  (roundHalfEven (x / 2 ^ f.ulpExp x) : ℚ) * 2 ^ f.ulpExp x

/-- The result of an operation whose exact value is `x`: the nearest number of
the format, or `none` when that exceeds the largest finite number (the
operation overflows to an infinity). -/
def FloatFormat.fl (f : FloatFormat) (x : ℚ) : Option ℚ :=
  if |f.nearest x| ≤ f.maxFinite then some (f.nearest x) else none

/-- The finite values of the format. -/
def FloatFormat.IsValue (f : FloatFormat) (x : ℚ) : Prop :=
  ∃ m e : Int, |m| < 2 ^ f.prec ∧ f.emin - ((f.prec : Int) - 1) ≤ e ∧
    e ≤ f.emax - ((f.prec : Int) - 1) ∧ x = m * 2 ^ e

/-- The two floating types of C that a declaration of `drsLog.h` may use. -/
inductive FloatType where
  | float
  | double
  deriving DecidableEq

/-- The format of a floating type. -/
def FloatType.format : FloatType → FloatFormat
  | FloatType.float => binary32
  | FloatType.double => binary64

/-! ## Trigger configuration: `setTrigger` (lines 234-265) -/

/-- The trigger configuration record `trigger_t`: polarity (false = rising),
logic (false = OR, true = AND), five source flags (CH1..CH4, EXT), four
threshold levels in volts and the delay in ns from the start of the window. -/
structure trigger_t where
  triggerPolarity : Bool
  triggerLogic : Bool
  triggerSource : Fin 5 → Bool
  triggerLevel : Fin 4 → ℚ
  triggerDelay : ℚ

/-- The compiled-in configuration `trigger` (lines 52-56). -/
def trigger : trigger_t where
  triggerPolarity := false
  triggerLogic := true
  triggerSource := fun i => decide (i.val = 1 ∨ i.val = 2)
  triggerLevel := fun _ => 5 / 100
  triggerDelay := 60

/-- Calls that `setTrigger` makes on the board, with their arguments. -/
inductive BoardCall where
  | EnableTrigger (flag1 flag2 : Int)
  | SetTranspMode (flag : Int)
  | SetIndividualTriggerLevel (channel : Nat) (voltage : ℚ)
  | SetTriggerSource (source : Nat)
  | SetTriggerPolarity (negative : Bool)
  | SetTriggerDelayNs (delay : ℚ)
  deriving DecidableEq

/-- One pass of the loop body at lines 248-252: or the flag of source `i` into
the mask, at bit `i` for OR logic and at bit `i + 8` for AND logic. -/
def triggerSourceStep (t : trigger_t) (triggerSource : Nat) (i : Fin 5) : Nat :=
  if !t.triggerLogic then
    triggerSource ||| ((t.triggerSource i).toNat <<< i.val)
  else
    triggerSource ||| ((t.triggerSource i).toNat <<< (i.val + 8))

/-- The loop at lines 242-253: `triggerSource` starts at 0 and the body runs
for `i = 0, 1, 2, 3, 4`. -/
def triggerSourceBits (t : trigger_t) : Nat :=
  (List.finRange 5).foldl (triggerSourceStep t) 0

/-- The loop at lines 256-258: one threshold call per analog channel. -/
def triggerLevelCalls (t : trigger_t) : List BoardCall :=
  (List.finRange 4).map
    (fun i => BoardCall.SetIndividualTriggerLevel (i.val + 1) (t.triggerLevel i))

/-- The function `setTrigger`: the value it returns and the calls it makes on a
board whose `GetBoardType()` answers `boardType`. -/
def setTrigger (boardType : Int) (t : trigger_t) : Int × List BoardCall :=
  if boardType < 8 then
    (-1, [])
  else
    (0,
      [BoardCall.EnableTrigger 1 0, BoardCall.SetTranspMode 1]
        ++ triggerLevelCalls t
        ++ [BoardCall.SetTriggerSource (triggerSourceBits t),
            BoardCall.SetTriggerPolarity t.triggerPolarity,
            BoardCall.SetTriggerDelayNs (sampleWindow - t.triggerDelay)])

/-- Arguments of the `SetTriggerSource` calls in a call log, in order. -/
def sourceArgs : List BoardCall → List Nat
  | [] => []
  | BoardCall.SetTriggerSource m :: cs => m :: sourceArgs cs
  | _ :: cs => sourceArgs cs

/-- Arguments of the `SetTriggerDelayNs` calls in a call log, in order. -/
def delayArgs : List BoardCall → List ℚ
  | [] => []
  | BoardCall.SetTriggerDelayNs d :: cs => d :: delayArgs cs
  | _ :: cs => delayArgs cs

/-! ## The vendor library as an oracle -/

/-- The answers one `DRSBoard` gives to the getters this program calls.
`GetWave chn triggerCell wsr bin` is the decoded sample (in mV) of bin `bin`
that `GetWave` delivers for channel index `chn`; `GetTimeCalibration chn bin`
is entry `bin` of the table `GetTimeCalibration(0, chn, 0, tcal, 0)` fills. -/
structure DRSBoard where
  GetBoardSerialNumber : Int
  GetBoardType : Int
  GetChannelDepth : Nat
  GetChannelCascading : Int
  GetStopCell : Int
  GetStopWSR : Int
  GetWave : Nat → Int → Int → Nat → ℚ
  GetTimeCalibration : Nat → Nat → ℚ

/-- The `DRS` object: the number of boards found and the board behind each
index. -/
structure DRS where
  GetNumberOfBoards : Nat
  GetBoard : Nat → DRSBoard

/-- The record `TIMESTAMP` filled by `GetTimeStamp` (lines 477-494). -/
structure TIMESTAMP where
  Year : Nat
  Month : Nat
  Day : Nat
  Hour : Nat
  Minute : Nat
  Second : Nat
  Milliseconds : Nat

/-! ## Process-wide state -/

/-- The globals of `drsLog.h` that `ReadWaveforms` and `SaveWaveforms` use,
and the static local `buffer_size` of `SaveWaveforms` (0 until the scratch
buffer has been sized). Waveform samples are finite values in mV. The header
is not part of the sources at hand: the element type it declares for
`m_waveform` and the type it declares for `m_inputRange` are the parameters
`waveformType` and `inputRangeType`. -/
structure Globals where
  waveformType : FloatType
  inputRangeType : FloatType
  m_board : Nat
  m_nBoards : Nat
  m_waveDepth : Nat
  m_evSerial : Int
  m_inputRange : ℚ
  m_chnOffset : Nat
  m_clkOn : Bool
  m_triggerCell : Nat → Int
  m_writeSR : Nat → Int
  m_waveform : Nat → Nat → Nat → ℚ
  m_evTimestamp : TIMESTAMP
  buffer_size : Nat

/-! ## Conversions to machine types -/

/-- Conversion `(unsigned short) x` of a floating value: the fractional part is
discarded (truncation toward zero); the conversion is defined only when the
truncated value fits the type, that is for `-1 < x < 65536`, and is `none`
otherwise. -/
def toUShort (x : ℚ) : Option Nat :=
  if -1 < x ∧ x < 65536 then some (Int.toNat (if 0 ≤ x then ⌊x⌋ else ⌈x⌉)) else none

/-- Conversion of an `int` to `unsigned short`: reduction modulo `2 ^ 16`. -/
def intToUShort (v : Int) : Nat := Int.toNat (v % 65536)

/-- Increment of an `int`, wrapping in 32-bit two's complement. -/
def incInt32 (v : Int) : Int := (v + 1 + 2147483648) % 4294967296 - 2147483648

/-! ## The scratch buffer -/

/-- One store into the scratch buffer: an ASCII tag (without the terminating
NUL that `sprintf` adds, which the next store overwrites), a 16-bit value
(`none` when the conversion that produced it is undefined), a 32-bit `int`, or
a 32-bit `float` (`none` when it is not finite). -/
inductive Field where
  | tag (s : String)
  | u16 (v : Option Nat)
  | i32 (v : Int)
  | f32 (v : Option ℚ)
  deriving DecidableEq

/-- Number of bytes by which the store advances the write pointer `p`. -/
def Field.size : Field → Nat
  | Field.tag s => s.length
  | Field.u16 _ => 2
  | Field.i32 _ => 4
  | Field.f32 _ => 4

/-- Number of bytes packed: `p - buffer`. -/
def packedSize (fs : List Field) : Nat := (fs.map Field.size).sum

/-- The text `sprintf` produces for `"C%03d"` with `0 ≤ n < 1000`. -/
def channelTag (n : Nat) : String :=
  String.mk ['C', Char.ofNat (48 + n / 100 % 10), Char.ofNat (48 + n / 10 % 10),
    Char.ofNat (48 + n % 10)]

/-! ## `SaveWaveforms` (lines 267-393) -/

/-- The part common to the two conversions at lines 363-367 and 372-374, from
the bin voltage on: `(unsigned short)((volts - m_inputRange + 0.5) * 65535)`,
each operation in `double`. -/
def scaleVolts (m_inputRange volts : ℚ) : Option Nat :=
  (binary64.fl (volts - m_inputRange)).bind fun a =>
  (binary64.fl (a + 1 / 2)).bind fun b =>
  (binary64.fl (b * 65535)).bind toUShort

/-- The 16-bit value stored for one bin in non-cascading mode (lines 372-374):
`(unsigned short)((sample / 1000.0 - m_inputRange + 0.5) * 65535)`. The
division by the `double` constant makes every operation a `double` one. -/
def storeSample (m_inputRange sample : ℚ) : Option Nat :=
  (binary64.fl (sample / 1000)).bind (scaleVolts m_inputRange)

/-- The 16-bit value stored for a pair of bins in cascading mode (lines
363-367): `(unsigned short)(((s0 + s1) / 2000.0 - m_inputRange + 0.5) * 65535)`.
The sum is formed in the element type of the waveform, the rest in `double`. -/
def storePair (ty : FloatType) (m_inputRange s0 s1 : ℚ) : Option Nat :=
  (ty.format.fl (s0 + s1)).bind fun s =>
  (binary64.fl (s / 2000)).bind (scaleVolts m_inputRange)

/-- The loop over the bins of one channel of the calibration block (lines
304-313), started at bin `j`; the first argument bounds the number of passes.
The table `tcal` and the variable `t` are of type `float`. -/
def packTimes (m_waveDepth : Nat) (tcal : Nat → ℚ) : Nat → Nat → List Field
  | 0, _ => []
  | fuel + 1, j =>
    if j < m_waveDepth then
      if m_waveDepth = 2048 then
        Field.f32 ((binary32.fl (tcal (j % 1024) + tcal ((j + 1) % 1024))).bind
            fun s => binary32.fl (s / 2))
          :: packTimes m_waveDepth tcal fuel (j + 1 + 1)
      else
        Field.f32 (some (tcal j)) :: packTimes m_waveDepth tcal fuel (j + 1)
    else []

/-- The loop over the bins of one channel of the event record (lines 357-378),
started at bin `j`; the first argument bounds the number of passes. -/
def packSamples (ty : FloatType) (m_waveDepth : Nat) (m_inputRange : ℚ) (w : Nat → ℚ) :
    Nat → Nat → List Field
  | 0, _ => []
  | fuel + 1, j =>
    if j < m_waveDepth then
      if m_waveDepth = 2048 then
        Field.u16 (storePair ty m_inputRange (w j) (w (j + 1)))
          :: packSamples ty m_waveDepth m_inputRange w fuel (j + 1 + 1)
      else
        Field.u16 (storeSample m_inputRange (w j))
          :: packSamples ty m_waveDepth m_inputRange w fuel (j + 1)
    else []

/-- What `SaveWaveforms` writes for one channel of the event record: the
channel tag and the samples (lines 355-378). -/
def packEventChannel (g : Globals) (b i : Nat) : List Field :=
  Field.tag (channelTag (i + 1))
    :: packSamples g.waveformType g.m_waveDepth g.m_inputRange (g.m_waveform b i)
        g.m_waveDepth 0

/-- What `SaveWaveforms` writes for board index `b` in the event record (lines
341-380). -/
def packEventBoard (drs : DRS) (g : Globals) (b : Nat) : List Field :=
  [Field.tag "B#", Field.u16 (some (intToUShort (drs.GetBoard b).GetBoardSerialNumber)),
   Field.tag "T#", Field.u16 (some (intToUShort (g.m_triggerCell b)))]
    ++ ((List.range 4).map (packEventChannel g b)).flatten

/-- What `SaveWaveforms` writes for one channel of the calibration block
(lines 300-313). -/
def packCalChannel (drs : DRS) (g : Globals) (b i : Nat) : List Field :=
  Field.tag (channelTag (i + 1))
    :: packTimes g.m_waveDepth ((drs.GetBoard b).GetTimeCalibration (i * 2)) g.m_waveDepth 0

/-- What `SaveWaveforms` writes for board index `b` in the calibration block
(lines 292-315). -/
def packCalBoard (drs : DRS) (g : Globals) (b : Nat) : List Field :=
  [Field.tag "B#", Field.u16 (some (intToUShort (drs.GetBoard b).GetBoardSerialNumber))]
    ++ ((List.range 4).map (packCalChannel drs g b)).flatten

/-- The time calibration block (lines 285-317), packed only when the event
serial is 1. -/
def packCalibration (drs : DRS) (g : Globals) : List Field :=
  if g.m_evSerial = 1 then
    Field.tag "TIME" :: ((List.range g.m_nBoards).map (packCalBoard drs g)).flatten
  else []

/-- The event header (lines 319-338). The product `m_inputRange * 1000` is
formed in the type of `m_inputRange`. -/
def packEventHeader (g : Globals) : List Field :=
  [Field.tag "EHDR", Field.i32 g.m_evSerial,
   Field.u16 (some (g.m_evTimestamp.Year % 65536)),
   Field.u16 (some (g.m_evTimestamp.Month % 65536)),
   Field.u16 (some (g.m_evTimestamp.Day % 65536)),
   Field.u16 (some (g.m_evTimestamp.Hour % 65536)),
   Field.u16 (some (g.m_evTimestamp.Minute % 65536)),
   Field.u16 (some (g.m_evTimestamp.Second % 65536)),
   Field.u16 (some (g.m_evTimestamp.Milliseconds % 65536)),
   Field.u16 ((g.inputRangeType.format.fl (g.m_inputRange * 1000)).bind toUShort)]

/-- Everything `SaveWaveforms` packs between `p = buffer` and `size = p -
buffer` (lines 283-381). -/
def packBuffer (drs : DRS) (g : Globals) : List Field :=
  packCalibration drs g ++ packEventHeader g
    ++ ((List.range g.m_nBoards).map (packEventBoard drs g)).flatten

/-- The size the scratch buffer is given when it is first needed (lines
278-279). -/
def scratchSize (m_nBoards m_waveDepth : Nat) : Nat :=
  4 + m_nBoards * (4 + 4 * (4 + m_waveDepth * 4))
    + (24 + m_nBoards * (8 + 4 * (4 + m_waveDepth * 2)))

/-- Outcome of one call of `SaveWaveforms`: whether the assertion of line 384
failed and ended the process; the value returned (0 stands in when the
assertion failed and nothing is returned); the fields packed and their size;
and the globals after the call. -/
structure SaveResult where
  aborted : Bool
  ret : Int
  buffer : List Field
  size : Nat
  g : Globals

/-- The function `SaveWaveforms(fd)`, where `n` is the value the call of
`write` returns. -/
def SaveWaveforms (drs : DRS) (fd : Int) (n : Int) (g : Globals) : SaveResult :=
  if fd ≠ 0 then
    let g1 : Globals :=
      if g.buffer_size = 0 then
        { g with buffer_size := scratchSize g.m_nBoards g.m_waveDepth }
      else g
    let buffer := packBuffer drs g1
    let size := packedSize buffer
    if size ≤ g1.buffer_size then
      if n ≠ (size : Int) then
        { aborted := false, ret := -1, buffer := buffer, size := size, g := g1 }
      else
        { aborted := false, ret := 1, buffer := buffer, size := size,
          g := { g1 with m_evSerial := incInt32 g1.m_evSerial } }
    else
      { aborted := true, ret := 0, buffer := buffer, size := size, g := g1 }
  else
    { aborted := false, ret := 1, buffer := [], size := 0,
      g := { g with m_evSerial := incInt32 g.m_evSerial } }

/-- The calls of `SaveWaveforms` made one after the other on the descriptor
`fd`. Each call is given by the library state, the value its `write` returns
and the globals as they stand when it is entered, except for the event serial
and the static `buffer_size`, which only `SaveWaveforms` changes and which are
carried from call to call. A failed assertion ends the process. -/
def saveSequence (fd : Int) : List (DRS × Int × Globals) → Int → Nat → List SaveResult
  | [], _, _ => []
  | (drs, n, g) :: calls, m_evSerial, buffer_size =>
    let r := SaveWaveforms drs fd n { g with m_evSerial := m_evSerial, buffer_size := buffer_size }
    r :: (if r.aborted then [] else saveSequence fd calls r.g.m_evSerial r.g.buffer_size)

/-- Number of calls in a sequence whose `write` was full, that is returned
the size asked for. -/
def fullWrites (rs : List SaveResult) : Nat :=
  (rs.filter (fun r => decide (r.ret = 1))).length

/-- The 16-bit fields that directly follow a `"B#"` tag, in order. -/
def serialFields : List Field → List (Option Nat)
  | [] => []
  | f :: fs =>
    match f, fs with
    | Field.tag s, Field.u16 v :: _ =>
      if s = "B#" then v :: serialFields fs else serialFields fs
    | _, _ => serialFields fs

/-! ## `ReadWaveforms` (lines 395-475) -/

/-- The extrapolation of the first two samples of a channel (lines 470-471),
each product and difference rounded to the element type. An overflow of the
extrapolation is not modelled: samples stay finite. -/
def extrapolate (ty : FloatType) (w : Nat → ℚ) : Nat → ℚ :=
  let w1 := Function.update w 1 (ty.format.nearest (ty.format.nearest (2 * w 2) - w 3))
  Function.update w1 0 (ty.format.nearest (ty.format.nearest (2 * w1 1) - w1 2))

/-- The four `GetWave` calls (lines 435-466): the waveform delivered for
channel `c` of slot `i`. -/
def decodeWave (b : DRSBoard) (g : Globals) (ofs i c : Nat) : Nat → ℚ :=
  if b.GetChannelCascading = 2 then
    if c = 0 then b.GetWave 0 (g.m_triggerCell i) (g.m_writeSR i)
    else if c = 1 then b.GetWave 1 (g.m_triggerCell i) (g.m_writeSR i)
    else if c = 2 then b.GetWave 2 (g.m_triggerCell i) (g.m_writeSR i)
    else if g.m_clkOn && decide (b.GetBoardType < 9) then b.GetWave 8 (g.m_triggerCell i) 0
    else b.GetWave 3 (g.m_triggerCell i) (g.m_writeSR i)
  else
    b.GetWave (2 * c + ofs) (g.m_triggerCell i) 0

/-- One pass of the loop at lines 413-473, for slot `i`. The time arrays
`m_time` and `m_timeClk` are left out: nothing modelled here reads them. -/
def readSlot (drs : DRS) (ofs : Nat) (g : Globals) (i : Nat) : Globals :=
  let b := if g.m_nBoards > 1 then drs.GetBoard i else drs.GetBoard g.m_board
  let g1 : Globals := { g with m_waveDepth := b.GetChannelDepth }
  { g1 with
    m_waveform := fun i0 c =>
      if i0 = i ∧ c < 4 then extrapolate g1.waveformType (decodeWave b g1 ofs i c)
      else g1.m_waveform i0 c }

/-- The function `ReadWaveforms()`, where `now` is what `GetTimeStamp`
delivers. -/
def ReadWaveforms (drs : DRS) (now : TIMESTAMP) (g : Globals) : Globals :=
  let g1 : Globals := { g with m_nBoards := 1 }
  let ofs := g1.m_chnOffset
  if (drs.GetBoard g1.m_board).GetBoardType = 9 then
    let g2 : Globals :=
      { g1 with
        m_triggerCell := Function.update g1.m_triggerCell 0 (drs.GetBoard g1.m_board).GetStopCell
        m_writeSR := Function.update g1.m_writeSR 0 (drs.GetBoard g1.m_board).GetStopWSR
        m_evTimestamp := now }
    (List.range g2.m_nBoards).foldl (readSlot drs ofs) g2
  else g1

/-! ## The event loop of `main` (lines 184-232) -/

/-- What the event loop observes of its surroundings: the number of boards,
the answer to the `k`-th call of `GetBoard(0)->IsBusy()`, the seconds field and
the kill flag read in the `k`-th pass of the trigger wait, the seconds field of
`startTime`, and the file descriptor. -/
structure Env where
  GetNumberOfBoards : Nat
  IsBusy : Nat → Bool
  tv_sec : Nat → Int
  killSignalFlag : Nat → Bool
  startTime : Int
  m_fd : Int

/-- Calls the event loop makes, in the order made; `ReadWaveforms j` and
`SaveWaveforms j` are the calls made while `m_board = j`. -/
inductive Action where
  | StartDomino (j : Nat)
  | ReadWaveforms (j : Nat)
  | SaveWaveforms (j : Nat)
  | close
  | deleteDrs
  deriving DecidableEq

/-- State of the event loop: the event counter `i`, how many busy answers and
how many clock readings have been consumed, and the calls made so far. -/
structure LoopState where
  i : Int
  polls : Nat
  ticks : Nat
  log : List Action
  deriving DecidableEq

/-- The loop at lines 189-191: the boards are started from the last down to
the master. -/
def startBoards (env : Env) : List Action :=
  ((List.range env.GetNumberOfBoards).reverse).map Action.StartDomino

/-- The statements at lines 199-202 and 224-231: close the file if it is open
and delete the `DRS` object. -/
def shutDown (env : Env) : List Action :=
  (if env.m_fd ≠ 0 then [Action.close] else []) ++ [Action.deleteDrs]

/-- The trigger wait (lines 195-206). The result is `none` when the fuel runs
out, `some (true, s)` when `main` returns from inside the wait, and
`some (false, s)` when the master is found not busy. -/
def waitForTrigger (env : Env) : Nat → LoopState → Option (Bool × LoopState)
  | 0, _ => none
  | fuel + 1, s =>
    if env.IsBusy s.polls then
      if env.killSignalFlag s.ticks || decide (env.tv_sec s.ticks - env.startTime ≥ MAXTIME) then
        some (true,
          { s with polls := s.polls + 1, ticks := s.ticks + 1, log := s.log ++ shutDown env })
      else
        waitForTrigger env fuel { s with polls := s.polls + 1, ticks := s.ticks + 1 }
    else
      some (false, { s with polls := s.polls + 1 })

/-- The read-out loop (lines 208-218), entered at board `j`; the first
argument bounds the number of passes. -/
def readBoards (env : Env) : Nat → Nat → LoopState → LoopState
  | 0, _, s => s
  | fuel + 1, j, s =>
    if j < env.GetNumberOfBoards then
      if env.IsBusy s.polls then
        { s with polls := s.polls + 1, i := s.i - 1 }
      else
        readBoards env fuel (j + 1)
          { s with
            polls := s.polls + 1
            log := s.log ++ [Action.ReadWaveforms j, Action.SaveWaveforms j] }
    else s

/-- One pass of the body of the event loop (lines 185-221) followed by the
`i++` of line 184. The flag of the result is `true` when `main` returned from
inside the trigger wait. -/
def eventPass (env : Env) (fuel : Nat) (s : LoopState) : Option (Bool × LoopState) :=
  match waitForTrigger env fuel { s with log := s.log ++ startBoards env } with
  | none => none
  | some (true, s1) => some (true, s1)
  | some (false, s1) =>
    let s2 := readBoards env env.GetNumberOfBoards 0 s1
    some (false, { s2 with i := s2.i + 1 })

/-- A board of type 9 with serial number `serial`, depth 1024, all of whose
samples and calibration entries are 0. -/
def quietBoard (serial : Int) : DRSBoard where
  GetBoardSerialNumber := serial
  GetBoardType := 9
  GetChannelDepth := 1024
  GetChannelCascading := 1
  GetStopCell := 0
  GetStopWSR := 0
  GetWave := fun _ _ _ _ => 0
  GetTimeCalibration := fun _ _ => 0

/-- A chain of two boards, with serial numbers 2001 (master) and 2002. -/
def chainOfTwo : DRS where
  GetNumberOfBoards := 2
  GetBoard := fun k => quietBoard (2001 + k)

/-- A timestamp. -/
def noon : TIMESTAMP where
  Year := 2017
  Month := 2
  Day := 15
  Hour := 12
  Minute := 0
  Second := 0
  Milliseconds := 0

/-- Globals before the first read-out: `float` samples and a `double` input
range, board 0 selected, depth 1024, event serial `serial`, input range 0,
scratch buffer not yet sized. -/
def freshGlobals (serial : Int) : Globals where
  waveformType := FloatType.float
  inputRangeType := FloatType.double
  m_board := 0
  m_nBoards := 1
  m_waveDepth := 1024
  m_evSerial := serial
  m_inputRange := 0
  m_chnOffset := 0
  m_clkOn := false
  m_triggerCell := fun _ => 0
  m_writeSR := fun _ => 0
  m_waveform := fun _ _ _ => 0
  m_evTimestamp := noon
  buffer_size := 0

/-- Globals in cascading mode: depth 2048, input range 0.875 V, and in every
channel the even bins at 570 mV and the odd bins at 580 mV. -/
def cascadedGlobals : Globals :=
  { freshGlobals 2 with
    m_waveDepth := 2048
    m_inputRange := 7 / 8
    m_waveform := fun _ _ k => 570 + 10 * ((k % 2 : Nat) : ℚ) }

/-- A channel whose bin 0 holds `7482989 * 2 ^ (-14)` mV (456.725... mV) and
whose other bins hold `12647693 * 2 ^ (-15)` mV (385.976... mV), both `float`
values. -/
def unevenPair : Nat → ℚ :=
  fun k => if k = 0 then 7482989 / 16384 else 12647693 / 32768

/-- State of the event loop when it is entered. -/
def loopStart : LoopState where
  i := 0
  polls := 0
  ticks := 0
  log := []

/-- Two boards; the master is not busy when polled in the trigger wait nor
before board 0 is read, and is busy again before board 1 is read. -/
def busyBeforeSecondBoard : Env where
  GetNumberOfBoards := 2
  IsBusy := fun k => decide (k = 2)
  tv_sec := fun _ => 0
  killSignalFlag := fun _ => false
  startTime := 0
  m_fd := 3

theorem triggerSourceBits_unfold (t : trigger_t) :
    triggerSourceBits t =
      if t.triggerLogic then
        ((t.triggerSource 0).toNat <<< 8) ||| ((t.triggerSource 1).toNat <<< 9) |||
        ((t.triggerSource 2).toNat <<< 10) ||| ((t.triggerSource 3).toNat <<< 11) |||
        ((t.triggerSource 4).toNat <<< 12)
      else
        ((t.triggerSource 0).toNat <<< 0) ||| ((t.triggerSource 1).toNat <<< 1) |||
        ((t.triggerSource 2).toNat <<< 2) ||| ((t.triggerSource 3).toNat <<< 3) |||
        ((t.triggerSource 4).toNat <<< 4) := by
  cases h : t.triggerLogic <;>
    simp [triggerSourceBits, triggerSourceStep, List.finRange, List.foldl, h, List.ofFn,
      Fin.foldr, Fin.foldr.loop]

theorem triggerSourceBits_or (t : trigger_t) (h : t.triggerLogic = false) (k : Nat) :
    (triggerSourceBits t).testBit k
      = (if h : k < 5 then t.triggerSource ⟨k, h⟩ else false) := by
  rw [triggerSourceBits_unfold, h]
  simp only [Bool.false_eq_true, if_false, Nat.testBit_or, Nat.testBit_shiftLeft,
    Nat.testBit_bool_to_nat]
  by_cases h5 : k < 5
  · simp only [h5, dite_true]
    interval_cases k <;> simp
  · simp only [h5, dite_false]
    simp
    omega

theorem triggerSourceBits_and (t : trigger_t) (h : t.triggerLogic = true) (k : Nat) :
    (triggerSourceBits t).testBit k
      = (if h : 8 ≤ k ∧ k < 13 then t.triggerSource ⟨k - 8, by omega⟩ else false) := by
  rw [triggerSourceBits_unfold, h]
  simp only [if_true, Nat.testBit_or, Nat.testBit_shiftLeft, Nat.testBit_bool_to_nat]
  by_cases h5 : 8 ≤ k ∧ k < 13
  · simp only [h5, dite_true]
    obtain ⟨h1, h2⟩ := h5
    interval_cases k <;> simp
  · simp only [h5, dite_false]
    simp
    omega

theorem sourceArgs_setTrigger (boardType : Int) (t : trigger_t) (h : 8 ≤ boardType) :
    sourceArgs (setTrigger boardType t).2 = [triggerSourceBits t] := by
  have hb : ¬ boardType < 8 := by omega
  simp [setTrigger, hb, triggerLevelCalls, List.finRange, sourceArgs, List.ofFn, Fin.foldr,
    Fin.foldr.loop]

theorem delayArgs_setTrigger (boardType : Int) (t : trigger_t) (h : 8 ≤ boardType) :
    delayArgs (setTrigger boardType t).2 = [sampleWindow - t.triggerDelay] := by
  have hb : ¬ boardType < 8 := by omega
  simp [setTrigger, hb, triggerLevelCalls, List.finRange, delayArgs, List.ofFn, Fin.foldr,
    Fin.foldr.loop]

/-! ## Lemmas on the bin loops -/

theorem packSamples_plain (ty : FloatType) (d : Nat) (r : ℚ) (w : Nat → ℚ) (hd : d ≠ 2048) :
    ∀ fuel j, packSamples ty d r w fuel j =
      (List.range (min fuel (d - j))).map (fun k => Field.u16 (storeSample r (w (j + k)))) := by
  intro fuel
  induction fuel with
  | zero => intro j; simp [packSamples]
  | succ fuel ih =>
    intro j
    by_cases hj : j < d
    · have hm : min (fuel + 1) (d - j) = min fuel (d - (j + 1)) + 1 := by omega
      rw [packSamples, if_pos hj, if_neg hd, ih, hm, List.range_succ_eq_map]
      simp [Function.comp_def, Nat.add_assoc, Nat.add_comm 1]
    · have hm : min (fuel + 1) (d - j) = 0 := by omega
      rw [packSamples, if_neg hj, hm]
      rfl

theorem packSamples_cascaded (ty : FloatType) (r : ℚ) (w : Nat → ℚ) :
    ∀ fuel j, packSamples ty 2048 r w fuel j =
      (List.range (min fuel ((2048 - j + 1) / 2))).map
        (fun k => Field.u16 (storePair ty r (w (j + 2 * k)) (w (j + 2 * k + 1)))) := by
  intro fuel
  induction fuel with
  | zero => intro j; simp [packSamples]
  | succ fuel ih =>
    intro j
    by_cases hj : j < 2048
    · have hm : min (fuel + 1) ((2048 - j + 1) / 2)
          = min fuel ((2048 - (j + 1 + 1) + 1) / 2) + 1 := by omega
      rw [packSamples, if_pos hj, if_pos rfl, ih, hm, List.range_succ_eq_map]
      simp only [List.map_cons, List.map_map, Function.comp_def, Nat.mul_zero, Nat.add_zero]
      congr 1
      apply List.map_congr_left
      intro k _
      have e1 : j + 1 + 1 + 2 * k = j + 2 * (k + 1) := by omega
      rw [e1]
    · have hm : min (fuel + 1) ((2048 - j + 1) / 2) = 0 := by omega
      rw [packSamples, if_neg hj, hm]
      rfl

theorem packTimes_plain (d : Nat) (tcal : Nat → ℚ) (hd : d ≠ 2048) :
    ∀ fuel j, packTimes d tcal fuel j =
      (List.range (min fuel (d - j))).map (fun k => Field.f32 (some (tcal (j + k)))) := by
  intro fuel
  induction fuel with
  | zero => intro j; simp [packTimes]
  | succ fuel ih =>
    intro j
    by_cases hj : j < d
    · have hm : min (fuel + 1) (d - j) = min fuel (d - (j + 1)) + 1 := by omega
      rw [packTimes, if_pos hj, if_neg hd, ih, hm, List.range_succ_eq_map]
      simp [Function.comp_def, Nat.add_assoc, Nat.add_comm 1]
    · have hm : min (fuel + 1) (d - j) = 0 := by omega
      rw [packTimes, if_neg hj, hm]
      rfl

theorem packTimes_cascaded (tcal : Nat → ℚ) :
    ∀ fuel j, packTimes 2048 tcal fuel j =
      (List.range (min fuel ((2048 - j + 1) / 2))).map
        (fun k => Field.f32
          ((binary32.fl (tcal ((j + 2 * k) % 1024) + tcal ((j + 2 * k + 1) % 1024))).bind
            fun s => binary32.fl (s / 2))) := by
  intro fuel
  induction fuel with
  | zero => intro j; simp [packTimes]
  | succ fuel ih =>
    intro j
    by_cases hj : j < 2048
    · have hm : min (fuel + 1) ((2048 - j + 1) / 2)
          = min fuel ((2048 - (j + 1 + 1) + 1) / 2) + 1 := by omega
      rw [packTimes, if_pos hj, if_pos rfl, ih, hm, List.range_succ_eq_map]
      simp only [List.map_cons, List.map_map, Function.comp_def, Nat.mul_zero, Nat.add_zero]
      congr 1
      apply List.map_congr_left
      intro k _
      have e1 : j + 1 + 1 + 2 * k = j + 2 * (k + 1) := by omega
      rw [e1]
    · have hm : min (fuel + 1) ((2048 - j + 1) / 2) = 0 := by omega
      rw [packTimes, if_neg hj, hm]
      rfl

/-! ## Lemmas on sizes -/

theorem packedSize_nil : packedSize [] = 0 := rfl

theorem packedSize_cons (f : Field) (fs : List Field) :
    packedSize (f :: fs) = f.size + packedSize fs := by
  simp [packedSize]

theorem packedSize_append (fs gs : List Field) :
    packedSize (fs ++ gs) = packedSize fs + packedSize gs := by
  simp [packedSize]

theorem packedSize_u16 (n : Nat) (f : Nat → Option Nat) :
    packedSize ((List.range n).map (fun k => Field.u16 (f k))) = 2 * n := by
  induction n with
  | zero => rfl
  | succ n ih =>
    rw [List.range_succ, List.map_append, packedSize_append, ih]
    simp [packedSize, Field.size]
    omega

theorem packedSize_f32 (n : Nat) (f : Nat → Option ℚ) :
    packedSize ((List.range n).map (fun k => Field.f32 (f k))) = 4 * n := by
  induction n with
  | zero => rfl
  | succ n ih =>
    rw [List.range_succ, List.map_append, packedSize_append, ih]
    simp [packedSize, Field.size]
    omega

theorem packedSize_blocks (f : Nat → List Field) (c : Nat) (h : ∀ b, packedSize (f b) = c) :
    ∀ n, packedSize ((List.range n).map f).flatten = n * c := by
  intro n
  induction n with
  | zero => simp [packedSize]
  | succ n ih =>
    rw [List.range_succ, List.map_append, List.flatten_append, packedSize_append, ih]
    simp [packedSize_append, packedSize_nil, h]
    ring

theorem channelTag_length (n : Nat) : (channelTag n).length = 4 := rfl

theorem packSamples_size (ty : FloatType) (d : Nat) (r : ℚ) (w : Nat → ℚ)
    (hd : d = 1024 ∨ d = 2048) :
    packedSize (packSamples ty d r w d 0) = 2 * 1024 := by
  rcases hd with hd | hd
  · rw [packSamples_plain ty d r w (by omega), packedSize_u16]; subst hd; rfl
  · subst hd; rw [packSamples_cascaded, packedSize_u16]; rfl

theorem packTimes_size (d : Nat) (tcal : Nat → ℚ) (hd : d = 1024 ∨ d = 2048) :
    packedSize (packTimes d tcal d 0) = 4 * 1024 := by
  rcases hd with hd | hd
  · rw [packTimes_plain d tcal (by omega), packedSize_f32]; subst hd; rfl
  · subst hd; rw [packTimes_cascaded, packedSize_f32]; rfl

theorem packEventBoard_size (drs : DRS) (g : Globals) (b : Nat)
    (hd : g.m_waveDepth = 1024 ∨ g.m_waveDepth = 2048) :
    packedSize (packEventBoard drs g b) = 8 + 4 * (4 + 2 * 1024) := by
  have hc : ∀ i, packedSize (packEventChannel g b i) = 4 + 2 * 1024 := by
    intro i
    rw [packEventChannel, packedSize_cons, packSamples_size _ _ _ _ hd]
    rfl
  rw [packEventBoard, packedSize_append, packedSize_blocks _ _ hc]
  rfl

theorem packCalBoard_size (drs : DRS) (g : Globals) (b : Nat)
    (hd : g.m_waveDepth = 1024 ∨ g.m_waveDepth = 2048) :
    packedSize (packCalBoard drs g b) = 4 + 4 * (4 + 4 * 1024) := by
  have hc : ∀ i, packedSize (packCalChannel drs g b i) = 4 + 4 * 1024 := by
    intro i
    rw [packCalChannel, packedSize_cons, packTimes_size _ _ hd]
    rfl
  rw [packCalBoard, packedSize_append, packedSize_blocks _ _ hc]
  rfl

theorem packBuffer_size (drs : DRS) (g : Globals)
    (hd : g.m_waveDepth = 1024 ∨ g.m_waveDepth = 2048) :
    packedSize (packBuffer drs g) =
      24 + g.m_nBoards * (8 + 4 * (4 + 2 * 1024))
        + (if g.m_evSerial = 1 then 4 + g.m_nBoards * (4 + 4 * (4 + 4 * 1024)) else 0) := by
  rw [packBuffer, packedSize_append, packedSize_append,
    packedSize_blocks _ _ (fun b => packEventBoard_size drs g b hd)]
  have hh : packedSize (packEventHeader g) = 24 := rfl
  rw [hh, packCalibration]
  split
  · rw [packedSize_cons, packedSize_blocks _ _ (fun b => packCalBoard_size drs g b hd)]
    have : (Field.tag "TIME").size = 4 := rfl
    rw [this]; ring
  · rw [packedSize_nil]; ring

/-! ## Lemmas on floating-point rounding -/

theorem roundHalfEven_error (y : ℚ) : |(roundHalfEven y : ℚ) - y| ≤ 1 / 2 := by
  have h1 : (⌊y⌋ : ℚ) ≤ y := Int.floor_le y
  have h2 : y < ⌊y⌋ + 1 := Int.lt_floor_add_one y
  unfold roundHalfEven
  split_ifs with ha hb hc
  · rw [abs_le]; constructor <;> linarith
  · rw [abs_le]; push_cast; constructor <;> linarith
  · rw [abs_le]; constructor <;> linarith
  · rw [abs_le]; push_cast; constructor <;> linarith

theorem roundHalfEven_eq (y : ℚ) (m : Int) (h : |y - m| < 1 / 2) : roundHalfEven y = m := by
  rw [abs_lt] at h
  have hfl : ⌊y⌋ = m ∨ ⌊y⌋ = m - 1 := by
    by_cases hm : (m : ℚ) ≤ y
    · left
      rw [Int.floor_eq_iff]
      constructor <;> linarith
    · right
      rw [Int.floor_eq_iff]
      push_cast
      constructor <;> linarith
  unfold roundHalfEven
  rcases hfl with hf | hf
  · have hlt : y - (⌊y⌋ : ℚ) < 1 / 2 := by rw [hf]; linarith
    rw [if_pos hlt, hf]
  · have h1 : ¬ y - (⌊y⌋ : ℚ) < 1 / 2 := by rw [hf]; push_cast; linarith
    have h2 : 1 / 2 < y - (⌊y⌋ : ℚ) := by rw [hf]; push_cast; linarith
    rw [if_neg h1, if_pos h2, hf]
    ring

theorem roundHalfEven_intCast (n : Int) : roundHalfEven (n : ℚ) = n :=
  roundHalfEven_eq _ n (by simp)

theorem two_zpow_pos (k : Int) : (0 : ℚ) < 2 ^ k := zpow_pos (by norm_num) k

theorem zpow_log_le (x : ℚ) (hx : 0 < x) : (2 : ℚ) ^ Int.log 2 x ≤ x := by
  have := Int.zpow_log_le_self (b := 2) (r := x) (by norm_num) hx
  simpa using this

theorem lt_zpow_log_succ (x : ℚ) : x < (2 : ℚ) ^ (Int.log 2 x + 1) := by
  have := Int.lt_zpow_succ_log_self (b := 2) (by norm_num) x
  simpa using this

theorem log_eq_of_bounds (x : ℚ) (e : Int) (h1 : (2 : ℚ) ^ e ≤ x) (h2 : x < (2 : ℚ) ^ (e + 1)) :
    Int.log 2 x = e := by
  have hx : 0 < x := lt_of_lt_of_le (two_zpow_pos e) h1
  have a : e ≤ Int.log 2 x := by
    rw [← Int.zpow_le_iff_le_log (b := 2) (by norm_num) hx]
    simpa using h1
  have b : Int.log 2 x < e + 1 := by
    rw [← Int.lt_zpow_iff_log_lt (b := 2) (by norm_num) hx]
    simpa using h2
  omega

/-- The result of rounding is the scaled value with its fraction rounded. -/
theorem nearest_def (f : FloatFormat) (x : ℚ) :
    f.nearest x = (roundHalfEven (x / 2 ^ f.ulpExp x) : ℚ) * 2 ^ f.ulpExp x := rfl

theorem nearest_zero (f : FloatFormat) : f.nearest 0 = 0 := by
  rw [nearest_def, zero_div]
  have : roundHalfEven (0 : ℚ) = 0 := by
    have := roundHalfEven_intCast 0
    simpa using this
  rw [this]; simp

theorem nearest_error_ulp (f : FloatFormat) (x : ℚ) :
    |f.nearest x - x| ≤ 2 ^ (f.ulpExp x - 1) := by
  have hp := two_zpow_pos (f.ulpExp x)
  have h := roundHalfEven_error (x / 2 ^ f.ulpExp x)
  have e : f.nearest x - x
      = ((roundHalfEven (x / 2 ^ f.ulpExp x) : ℚ) - x / 2 ^ f.ulpExp x) * 2 ^ f.ulpExp x := by
    rw [nearest_def]; field_simp
  rw [e, abs_mul, abs_of_pos hp]
  have e2 : (2 : ℚ) ^ (f.ulpExp x - 1) = 1 / 2 * 2 ^ f.ulpExp x := by
    rw [zpow_sub₀ (by norm_num)]; simp; ring
  rw [e2]
  exact mul_le_mul_of_nonneg_right h hp.le

theorem nearest_error (f : FloatFormat) (x : ℚ) :
    |f.nearest x - x| ≤ |x| * 2 ^ (-(f.prec : Int)) + 2 ^ (f.emin - f.prec) := by
  by_cases hx : x = 0
  · subst hx
    rw [nearest_zero]
    simp
    exact (two_zpow_pos _).le
  · have hpos : 0 < |x| := abs_pos.mpr hx
    refine le_trans (nearest_error_ulp f x) ?_
    unfold FloatFormat.ulpExp
    rcases le_total (Int.log 2 |x|) f.emin with h | h
    · rw [max_eq_right h]
      have : f.emin - ((f.prec : Int) - 1) - 1 = f.emin - f.prec := by ring
      rw [this]
      have := mul_nonneg hpos.le (two_zpow_pos (-(f.prec : Int))).le
      linarith
    · rw [max_eq_left h]
      have e : Int.log 2 |x| - ((f.prec : Int) - 1) - 1 = Int.log 2 |x| + (-(f.prec : Int)) := by
        ring
      rw [e, zpow_add₀ (by norm_num)]
      have h1 := zpow_log_le |x| hpos
      have := mul_le_mul_of_nonneg_right h1 (two_zpow_pos (-(f.prec : Int))).le
      have := (two_zpow_pos (f.emin - f.prec)).le
      linarith

theorem maxFinite_binary32 : (2 : ℚ) ^ (127 : Int) ≤ binary32.maxFinite := by
  norm_num [FloatFormat.maxFinite, binary32]

theorem maxFinite_binary64 : (2 : ℚ) ^ (127 : Int) ≤ binary64.maxFinite := by
  norm_num [FloatFormat.maxFinite, binary64]

theorem fl_of_le (f : FloatFormat) (x : ℚ) (h : |f.nearest x| ≤ f.maxFinite) :
    f.fl x = some (f.nearest x) := by
  unfold FloatFormat.fl
  rw [if_pos h]

theorem nearest_abs_le (f : FloatFormat) (x : ℚ) :
    |f.nearest x| ≤ |x| + (|x| * 2 ^ (-(f.prec : Int)) + 2 ^ (f.emin - f.prec)) := by
  have h := nearest_error f x
  have h2 : |f.nearest x| ≤ |f.nearest x - x| + |x| := by
    have := abs_add (f.nearest x - x) x
    simpa using this
  linarith

theorem fl_binary64 (x : ℚ) (h : |x| ≤ 2 ^ (20 : Int)) :
    binary64.fl x = some (binary64.nearest x) := by
  apply fl_of_le
  have h1 := nearest_abs_le binary64 x
  have h2 := maxFinite_binary64
  have h3 : (0 : ℚ) ≤ |x| := abs_nonneg x
  norm_num [binary64, FloatFormat.emin] at h1 h h2 ⊢
  nlinarith

theorem fl_binary32 (x : ℚ) (h : |x| ≤ 2 ^ (20 : Int)) :
    binary32.fl x = some (binary32.nearest x) := by
  apply fl_of_le
  have h1 := nearest_abs_le binary32 x
  have h2 := maxFinite_binary32
  have h3 : (0 : ℚ) ≤ |x| := abs_nonneg x
  norm_num [binary32, FloatFormat.emin] at h1 h h2 ⊢
  nlinarith

theorem error_binary64 (x : ℚ) :
    |binary64.nearest x - x| ≤ |x| * 2 ^ (-53 : Int) + 2 ^ (-1075 : Int) := by
  have h := nearest_error binary64 x
  simpa [binary64, FloatFormat.emin] using h

theorem error_binary32 (x : ℚ) :
    |binary32.nearest x - x| ≤ |x| * 2 ^ (-24 : Int) + 2 ^ (-150 : Int) := by
  have h := nearest_error binary32 x
  simpa [binary32, FloatFormat.emin] using h

/-- A value that is an integer multiple of a power of two no finer than its
unit in the last place is left unchanged by rounding. -/
theorem nearest_of_multiple (f : FloatFormat) (x : ℚ) (n k : Int) (hx : x = n * 2 ^ k)
    (hk : f.ulpExp x ≤ k) : f.nearest x = x := by
  have key : ∀ u : Int, u ≤ k → (roundHalfEven (x / 2 ^ u) : ℚ) * 2 ^ u = x := by
    intro u hu
    have hp := two_zpow_pos u
    obtain ⟨j, hj⟩ : ∃ j : Nat, k = u + j := ⟨(k - u).toNat, by omega⟩
    have hdiv : x / 2 ^ u = ((n * 2 ^ j : Int) : ℚ) := by
      rw [hx, hj, zpow_add₀ (by norm_num), zpow_natCast]
      push_cast
      field_simp
      ring
    rw [hdiv, roundHalfEven_intCast, ← hdiv]
    field_simp
  exact key _ hk

/-- Evaluation of a rounding from the binade of the argument and the nearest
integer of the scaled argument. -/
theorem nearest_eval (f : FloatFormat) (x : ℚ) (e m : Int) (h1 : (2 : ℚ) ^ e ≤ |x|)
    (h2 : |x| < (2 : ℚ) ^ (e + 1)) (he : f.emin ≤ e)
    (hm : |x / 2 ^ (e - ((f.prec : Int) - 1)) - m| < 1 / 2) :
    f.nearest x = m * 2 ^ (e - ((f.prec : Int) - 1)) := by
  have hl := log_eq_of_bounds |x| e h1 h2
  have hu : f.ulpExp x = e - ((f.prec : Int) - 1) := by
    unfold FloatFormat.ulpExp
    rw [hl, max_eq_left he]
  rw [nearest_def, hu, roundHalfEven_eq _ m hm]

theorem roundHalfEven_tie (y : ℚ) (m : Int) (h : y = m - 1 / 2 ∨ y = m + 1 / 2)
    (hm : m % 2 = 0) : roundHalfEven y = m := by
  unfold roundHalfEven
  rcases h with h | h
  · have hf : ⌊y⌋ = m - 1 := by
      rw [Int.floor_eq_iff, h]
      push_cast
      constructor <;> linarith
    have h1 : ¬ y - (⌊y⌋ : ℚ) < 1 / 2 := by rw [hf, h]; push_cast; linarith
    have h2 : ¬ (1 / 2 < y - (⌊y⌋ : ℚ)) := by rw [hf, h]; push_cast; linarith
    have h3 : ¬ (⌊y⌋ % 2 = 0) := by rw [hf]; omega
    rw [if_neg h1, if_neg h2, if_neg h3, hf]
    ring
  · have hf : ⌊y⌋ = m := by
      rw [Int.floor_eq_iff, h]
      constructor <;> linarith
    have h1 : ¬ y - (⌊y⌋ : ℚ) < 1 / 2 := by rw [hf, h]; linarith
    have h2 : ¬ (1 / 2 < y - (⌊y⌋ : ℚ)) := by rw [hf, h]; linarith
    have h3 : ⌊y⌋ % 2 = 0 := by rw [hf]; exact hm
    rw [if_neg h1, if_neg h2, if_pos h3, hf]

/-- Evaluation of a rounding whose scaled argument lies halfway between two
integers: the even one is taken. -/
theorem nearest_eval_tie (f : FloatFormat) (x : ℚ) (e m : Int) (h1 : (2 : ℚ) ^ e ≤ |x|)
    (h2 : |x| < (2 : ℚ) ^ (e + 1)) (he : f.emin ≤ e)
    (hm : x / 2 ^ (e - ((f.prec : Int) - 1)) = m - 1 / 2 ∨
      x / 2 ^ (e - ((f.prec : Int) - 1)) = m + 1 / 2)
    (hev : m % 2 = 0) :
    f.nearest x = m * 2 ^ (e - ((f.prec : Int) - 1)) := by
  have hl := log_eq_of_bounds |x| e h1 h2
  have hu : f.ulpExp x = e - ((f.prec : Int) - 1) := by
    unfold FloatFormat.ulpExp
    rw [hl, max_eq_left he]
  rw [nearest_def, hu, roundHalfEven_tie _ m hm hev]

theorem toUShort_eval (x : ℚ) (d : Nat) (h1 : (d : ℚ) ≤ x) (h2 : x < d + 1) (h3 : d ≤ 65535) :
    toUShort x = some d := by
  have h0 : (0 : ℚ) ≤ x := le_trans (Nat.cast_nonneg d) h1
  have hd : (d : ℚ) ≤ 65535 := by exact_mod_cast h3
  unfold toUShort
  rw [if_pos ⟨by linarith, by linarith⟩, if_pos h0]
  have : ⌊x⌋ = (d : Int) := by
    rw [Int.floor_eq_iff]
    push_cast
    exact ⟨h1, h2⟩
  rw [this]
  rfl

theorem fl64_eval (x y : ℚ) (hn : binary64.nearest x = y) (hy : |y| ≤ 2 ^ (127 : Int)) :
    binary64.fl x = some y := by
  rw [fl_of_le binary64 x (by rw [hn]; exact le_trans hy maxFinite_binary64), hn]

theorem fl32_eval (x y : ℚ) (hn : binary32.nearest x = y) (hy : |y| ≤ 2 ^ (127 : Int)) :
    binary32.fl x = some y := by
  rw [fl_of_le binary32 x (by rw [hn]; exact le_trans hy maxFinite_binary32), hn]

/-! ## Lemmas on the conversion of samples -/

theorem toUShort_trunc (c x η : ℚ) (hη1 : η < 1 / 2) (hx0 : 0 ≤ x)
    (hx1 : x ≤ 65535) (hc : |c - x| ≤ η) :
    ∃ d : Nat, toUShort c = some d ∧ (d : ℚ) ≤ x + η ∧ x - 1 - η < d := by
  rw [abs_le] at hc
  obtain ⟨hc1, hc2⟩ := hc
  unfold toUShort
  rw [if_pos ⟨by linarith, by linarith⟩]
  by_cases h0 : 0 ≤ c
  · rw [if_pos h0]
    have hfl : 0 ≤ ⌊c⌋ := Int.floor_nonneg.mpr h0
    have hcast : ((⌊c⌋.toNat : Nat) : ℚ) = (⌊c⌋ : ℚ) := by
      have := Int.toNat_of_nonneg hfl
      exact_mod_cast congrArg (fun z : Int => (z : ℚ)) this
    refine ⟨⌊c⌋.toNat, rfl, ?_, ?_⟩
    · rw [hcast]
      have := Int.floor_le c
      linarith
    · rw [hcast]
      have := Int.lt_floor_add_one c
      linarith
  · rw [if_neg h0]
    have hneg : c < 0 := lt_of_not_le h0
    have hceil : ⌈c⌉ = 0 := by
      rw [Int.ceil_eq_iff]
      push_cast
      constructor <;> linarith
    refine ⟨0, by rw [hceil]; rfl, ?_, ?_⟩
    · push_cast; linarith
    · push_cast; linarith

/-- The conversion from the bin voltage on: when the voltage `v` handed over is
within `ε` of a voltage `q` of the window, the value stored is the scaled `q`
with its fraction discarded, up to `65535 ε + 2 ^ (-34)`. -/
theorem scaleVolts_bounds (r v q ε : ℚ) (hr : |r| ≤ 1) (hlo : r - 1 / 2 ≤ q)
    (hhi : q ≤ r + 1 / 2) (hv : |v - q| ≤ ε) (hε : ε ≤ 1 / 2 ^ 20) :
    ∃ d : Nat, scaleVolts r v = some d ∧
      (d : ℚ) ≤ (q - r + 1 / 2) * 65535 + (65535 * ε + 1 / 2 ^ 34) ∧
      (q - r + 1 / 2) * 65535 - 1 - (65535 * ε + 1 / 2 ^ 34) < d := by
  have hε0 : 0 ≤ ε := le_trans (abs_nonneg _) hv
  rw [abs_le] at hr hv
  obtain ⟨hr1, hr2⟩ := hr
  obtain ⟨hv1, hv2⟩ := hv
  have t : (2 : ℚ) ^ (-1075 : Int) ≤ 1 / 2 ^ 60 := by norm_num
  have t0 : (0 : ℚ) < 2 ^ (-1075 : Int) := two_zpow_pos _
  have u : (2 : ℚ) ^ (-53 : Int) = 1 / 2 ^ 53 := by norm_num
  -- the difference
  have ha' : |v - r| ≤ 1 := by rw [abs_le]; constructor <;> linarith
  have hae := error_binary64 (v - r)
  have hae2 : |binary64.nearest (v - r) - (v - r)| ≤ 1 / 2 ^ 53 + 1 / 2 ^ 60 := by
    have := mul_le_mul_of_nonneg_right ha' (two_zpow_pos (-53 : Int)).le
    rw [u] at this hae
    linarith
  have hfa : binary64.fl (v - r) = some (binary64.nearest (v - r)) :=
    fl_binary64 _ (le_trans ha' (by norm_num))
  set a := binary64.nearest (v - r) with hadef
  rw [abs_le] at hae2 ha'
  -- the sum
  have hb' : |a + 1 / 2| ≤ 2 := by rw [abs_le]; constructor <;> linarith
  have hbe := error_binary64 (a + 1 / 2)
  have hbe2 : |binary64.nearest (a + 1 / 2) - (a + 1 / 2)| ≤ 2 / 2 ^ 53 + 1 / 2 ^ 60 := by
    have := mul_le_mul_of_nonneg_right hb' (two_zpow_pos (-53 : Int)).le
    rw [u] at this hbe
    linarith
  have hfb : binary64.fl (a + 1 / 2) = some (binary64.nearest (a + 1 / 2)) :=
    fl_binary64 _ (le_trans hb' (by norm_num))
  set b := binary64.nearest (a + 1 / 2) with hbdef
  rw [abs_le] at hbe2 hb'
  -- the product
  have hc' : |b * 65535| ≤ 2 ^ 18 := by rw [abs_le]; constructor <;> linarith
  have hce := error_binary64 (b * 65535)
  have hce2 : |binary64.nearest (b * 65535) - b * 65535| ≤ 2 ^ 18 / 2 ^ 53 + 1 / 2 ^ 60 := by
    have := mul_le_mul_of_nonneg_right hc' (two_zpow_pos (-53 : Int)).le
    rw [u] at this hce
    linarith
  have hfc : binary64.fl (b * 65535) = some (binary64.nearest (b * 65535)) :=
    fl_binary64 _ (le_trans hc' (by norm_num))
  set c := binary64.nearest (b * 65535) with hcdef
  rw [abs_le] at hce2
  have hcx : |c - (q - r + 1 / 2) * 65535| ≤ 65535 * ε + 1 / 2 ^ 34 := by
    rw [abs_le]
    constructor <;> linarith
  have hη1 : 65535 * ε + 1 / 2 ^ 34 < 1 / 2 := by linarith
  obtain ⟨d, hd, hd1, hd2⟩ := toUShort_trunc c ((q - r + 1 / 2) * 65535) _ hη1
    (by nlinarith) (by nlinarith) hcx
  refine ⟨d, ?_, hd1, hd2⟩
  unfold scaleVolts
  rw [hfa, Option.some_bind, hfb, Option.some_bind, hfc, Option.some_bind]
  exact hd

/-- The value stored for a bin of the window in non-cascading mode is the
exactly scaled sample with its fraction discarded, up to `2 ^ (-33)`. -/
theorem storeSample_bounds (r s : ℚ) (hr : |r| ≤ 1) (hlo : r - 1 / 2 ≤ s / 1000)
    (hhi : s / 1000 ≤ r + 1 / 2) :
    ∃ d : Nat, storeSample r s = some d ∧
      (d : ℚ) ≤ (s / 1000 - r + 1 / 2) * 65535 + 1 / 2 ^ 33 ∧
      (s / 1000 - r + 1 / 2) * 65535 - 1 - 1 / 2 ^ 33 < d := by
  have hr' := abs_le.mp hr
  have hq : |s / 1000| ≤ 2 := by rw [abs_le]; constructor <;> linarith
  have he := error_binary64 (s / 1000)
  have u : (2 : ℚ) ^ (-53 : Int) = 1 / 2 ^ 53 := by norm_num
  have t : (2 : ℚ) ^ (-1075 : Int) ≤ 1 / 2 ^ 60 := by norm_num
  have he2 : |binary64.nearest (s / 1000) - s / 1000| ≤ 1 / 2 ^ 51 := by
    have := mul_le_mul_of_nonneg_right hq (two_zpow_pos (-53 : Int)).le
    rw [u] at this he
    have e : (1 : ℚ) / 2 ^ 51 = 2 * (1 / 2 ^ 53) + 2 * (1 / 2 ^ 53) := by norm_num
    have t2 : (1 : ℚ) / 2 ^ 60 ≤ 2 * (1 / 2 ^ 53) := by norm_num
    linarith
  have hf : binary64.fl (s / 1000) = some (binary64.nearest (s / 1000)) :=
    fl_binary64 _ (le_trans hq (by norm_num))
  obtain ⟨d, hd, hd1, hd2⟩ := scaleVolts_bounds r (binary64.nearest (s / 1000)) (s / 1000)
    (1 / 2 ^ 51) hr hlo hhi he2 (by norm_num)
  refine ⟨d, ?_, ?_, ?_⟩
  · unfold storeSample
    rw [hf, Option.some_bind]
    exact hd
  · have : (65535 : ℚ) * (1 / 2 ^ 51) + 1 / 2 ^ 34 ≤ 1 / 2 ^ 33 := by norm_num
    linarith
  · have : (65535 : ℚ) * (1 / 2 ^ 51) + 1 / 2 ^ 34 ≤ 1 / 2 ^ 33 := by norm_num
    linarith

theorem error_elementType (ty : FloatType) (x : ℚ) :
    |ty.format.nearest x - x| ≤ |x| * (1 / 2 ^ 24) + 1 / 2 ^ 60 := by
  have hx : (0 : ℚ) ≤ |x| := abs_nonneg x
  cases ty with
  | float =>
    have h := error_binary32 x
    have u : (2 : ℚ) ^ (-24 : Int) = 1 / 2 ^ 24 := by norm_num
    have t : (2 : ℚ) ^ (-150 : Int) ≤ 1 / 2 ^ 60 := by norm_num
    rw [u] at h
    exact le_trans h (by linarith)
  | double =>
    have h := error_binary64 x
    have u : (2 : ℚ) ^ (-53 : Int) = 1 / 2 ^ 53 := by norm_num
    have t : (2 : ℚ) ^ (-1075 : Int) ≤ 1 / 2 ^ 60 := by norm_num
    rw [u] at h
    have : |x| * (1 / 2 ^ 53) ≤ |x| * (1 / 2 ^ 24) :=
      mul_le_mul_of_nonneg_left (by norm_num) hx
    exact le_trans h (by linarith)

theorem fl_elementType (ty : FloatType) (x : ℚ) (h : |x| ≤ 2 ^ (20 : Int)) :
    ty.format.fl x = some (ty.format.nearest x) := by
  cases ty with
  | float => exact fl_binary32 x h
  | double => exact fl_binary64 x h

/-- The value stored for a pair of bins in cascading mode, when the exact mean
of the pair lies in the window, is the exactly scaled exact mean with its
fraction discarded, up to `2 ^ (-7)`. -/
theorem storePair_bounds (ty : FloatType) (r s0 s1 : ℚ) (hr : |r| ≤ 1)
    (hlo : r - 1 / 2 ≤ (s0 + s1) / 2 / 1000) (hhi : (s0 + s1) / 2 / 1000 ≤ r + 1 / 2) :
    ∃ d : Nat, storePair ty r s0 s1 = some d ∧
      (d : ℚ) ≤ ((s0 + s1) / 2 / 1000 - r + 1 / 2) * 65535 + 1 / 2 ^ 7 ∧
      ((s0 + s1) / 2 / 1000 - r + 1 / 2) * 65535 - 1 - 1 / 2 ^ 7 < d := by
  have hr' := abs_le.mp hr
  have hS : |s0 + s1| ≤ 3000 := by rw [abs_le]; constructor <;> linarith
  have hSe := error_elementType ty (s0 + s1)
  have hSe2 : |ty.format.nearest (s0 + s1) - (s0 + s1)| ≤ 3000 / 2 ^ 24 + 1 / 2 ^ 60 := by
    have := mul_le_mul_of_nonneg_right hS (show (0 : ℚ) ≤ 1 / 2 ^ 24 by norm_num)
    linarith
  have hfS : ty.format.fl (s0 + s1) = some (ty.format.nearest (s0 + s1)) :=
    fl_elementType ty _ (le_trans hS (by norm_num))
  set S := ty.format.nearest (s0 + s1) with hSdef
  rw [abs_le] at hSe2 hS
  have hq : |S / 2000| ≤ 2 := by rw [abs_le]; constructor <;> linarith
  have he := error_binary64 (S / 2000)
  have u : (2 : ℚ) ^ (-53 : Int) = 1 / 2 ^ 53 := by norm_num
  have t : (2 : ℚ) ^ (-1075 : Int) ≤ 1 / 2 ^ 60 := by norm_num
  have he2 : |binary64.nearest (S / 2000) - S / 2000| ≤ 1 / 2 ^ 51 := by
    have := mul_le_mul_of_nonneg_right hq (two_zpow_pos (-53 : Int)).le
    rw [u] at this he
    have t2 : (1 : ℚ) / 2 ^ 60 ≤ 2 * (1 / 2 ^ 53) := by norm_num
    have e : (1 : ℚ) / 2 ^ 51 = 2 * (1 / 2 ^ 53) + 2 * (1 / 2 ^ 53) := by norm_num
    linarith
  have hf : binary64.fl (S / 2000) = some (binary64.nearest (S / 2000)) :=
    fl_binary64 _ (le_trans hq (by norm_num))
  rw [abs_le] at he2
  have hv : |binary64.nearest (S / 2000) - (s0 + s1) / 2 / 1000| ≤ 1 / 2 ^ 23 := by
    rw [abs_le]
    constructor <;> linarith
  obtain ⟨d, hd, hd1, hd2⟩ := scaleVolts_bounds r (binary64.nearest (S / 2000))
    ((s0 + s1) / 2 / 1000) (1 / 2 ^ 23) hr hlo hhi hv (by norm_num)
  have hη : (65535 : ℚ) * (1 / 2 ^ 23) + 1 / 2 ^ 34 ≤ 1 / 2 ^ 7 := by norm_num
  refine ⟨d, ?_, by linarith, by linarith⟩
  unfold storePair
  rw [hfS, Option.some_bind, hf, Option.some_bind]
  exact hd

/-! ## Lemmas on exact cases -/

theorem value_multiple (x : ℚ) (h : binary64.IsValue x) :
    ∃ A : Int, x = A * 2 ^ (-1074 : Int) := by
  obtain ⟨m, e, _, he, _, hx⟩ := h
  have he' : (-1074 : Int) ≤ e := by
    simpa [binary64, FloatFormat.emin] using he
  obtain ⟨j, hj⟩ : ∃ j : Nat, e = (j : Int) + (-1074) := ⟨(e + 1074).toNat, by omega⟩
  refine ⟨m * 2 ^ j, ?_⟩
  rw [hx, hj, zpow_add₀ (by norm_num), zpow_natCast]
  push_cast
  ring

theorem log_lt_of_abs_lt (q : ℚ) (k : Int) (h0 : q ≠ 0) (h : |q| < 2 ^ k) :
    Int.log 2 |q| < k := by
  rw [← Int.lt_zpow_iff_log_lt (b := 2) (by norm_num) (abs_pos.mpr h0)]
  simpa using h

/-- A thousandth of a `double` value is itself a `double` value when it is a
multiple of the smallest positive `double`. -/
theorem nearest_thousandth (s q : ℚ) (hs : binary64.IsValue s)
    (hq : ∃ A : Int, q = A * 2 ^ (-1074 : Int)) (h : s = 1000 * q) :
    binary64.nearest q = q := by
  obtain ⟨m, e, hm, he, _, hsx⟩ := hs
  obtain ⟨A, hA⟩ := hq
  have he' : (-1074 : Int) ≤ e := by
    simpa [binary64, FloatFormat.emin] using he
  by_cases h0 : q = 0
  · rw [h0, nearest_zero]
  have hmq : |(m : ℚ)| < 2 ^ 53 := by
    have : ((|m| : Int) : ℚ) < ((2 ^ 53 : Int) : ℚ) := by
      exact_mod_cast (by simpa [binary64] using hm : |m| < 2 ^ 53)
    simpa using this
  have hqabs : |q| < 2 ^ (e + 44) := by
    have hq2 : q = s / 1000 := by rw [h]; ring
    rw [hq2, hsx, abs_div, abs_mul, abs_of_pos (two_zpow_pos e),
      abs_of_pos (show (0 : ℚ) < 1000 by norm_num), zpow_add₀ (by norm_num)]
    have hp := two_zpow_pos e
    rw [div_lt_iff₀ (by norm_num)]
    have h44 : (2 : ℚ) ^ (44 : Int) = 2 ^ 44 := by norm_num
    rw [h44]
    nlinarith
  have hL := log_lt_of_abs_lt q (e + 44) h0 hqabs
  have hu : binary64.ulpExp q = max (Int.log 2 |q|) (-1022) - 52 := by
    simp [FloatFormat.ulpExp, binary64, FloatFormat.emin]
  by_cases hcase : e ≤ -1071
  · apply nearest_of_multiple binary64 q A (-1074) hA
    rw [hu]
    omega
  · obtain ⟨j, hj⟩ : ∃ j : Nat, e = (j : Int) + 3 + (-1074) := ⟨(e - 3 + 1074).toNat, by omega⟩
    have hq1 : (m : ℚ) * 2 ^ (j + 3) * 2 ^ (-1074 : Int) = 1000 * A * 2 ^ (-1074 : Int) := by
      have e1 : (2 : ℚ) ^ e = 2 ^ (j + 3) * 2 ^ (-1074 : Int) := by
        rw [hj, zpow_add₀ (by norm_num)]
        congr 1
        have : ((j : Int) + 3) = ((j + 3 : Nat) : Int) := by push_cast; ring
        rw [this, zpow_natCast]
      rw [mul_assoc, ← e1, ← hsx, h, hA]
      ring
    have hq2 : (m : ℚ) * 2 ^ (j + 3) = 1000 * A :=
      mul_right_cancel₀ (ne_of_gt (two_zpow_pos (-1074 : Int))) hq1
    have hZ : m * 2 ^ (j + 3) = 1000 * A := by exact_mod_cast hq2
    have hZ2 : 125 * A = 2 ^ j * m := by
      rw [pow_add] at hZ
      linarith
    have hdvd : (2 ^ j : Int) ∣ 125 * A := ⟨m, hZ2⟩
    have hco : IsCoprime (2 ^ j : Int) 125 :=
      IsCoprime.pow_left (by norm_num : IsCoprime (2 : Int) 125)
    obtain ⟨A1, hA1⟩ := hco.dvd_of_dvd_mul_left hdvd
    apply nearest_of_multiple binary64 q A1 (e - 3)
    · rw [hA, hA1, hj]
      have : (j : Int) + 3 + -1074 - 3 = (j : Int) + (-1074) := by ring
      rw [this, zpow_add₀ (by norm_num), zpow_natCast]
      push_cast
      ring
    · rw [hu]
      omega

theorem nearest_half : binary64.nearest (1 / 2) = 1 / 2 := by
  have h := nearest_eval binary64 (1 / 2) (-1) (2 ^ 52) (by norm_num [abs_of_pos])
    (by norm_num [abs_of_pos]) (by decide) (by norm_num [binary64])
  rw [h]
  norm_num [binary64]

theorem nearest_neg_half : binary64.nearest (-(1 / 2)) = -(1 / 2) := by
  have h := nearest_eval binary64 (-(1 / 2)) (-1) (-(2 ^ 52)) (by norm_num [abs_of_pos])
    (by norm_num [abs_of_pos]) (by decide) (by norm_num [binary64])
  rw [h]
  norm_num [binary64]

theorem nearest_one : binary64.nearest 1 = 1 := by
  have h := nearest_eval binary64 1 0 (2 ^ 52) (by norm_num)
    (by norm_num) (by decide) (by norm_num [binary64])
  rw [h]
  norm_num [binary64]

theorem nearest_full_scale : binary64.nearest 65535 = 65535 := by
  have h := nearest_eval binary64 65535 15 (65535 * 2 ^ 37) (by norm_num)
    (by norm_num) (by decide) (by norm_num [binary64])
  rw [h]
  norm_num [binary64]

theorem nearest_half_scale : binary64.nearest (65535 / 2) = 65535 / 2 := by
  have h := nearest_eval binary64 (65535 / 2) 14 (65535 * 2 ^ 37) (by norm_num [abs_of_pos])
    (by norm_num [abs_of_pos]) (by decide) (by norm_num [binary64])
  rw [h]
  norm_num [binary64]

/-- Evaluation of the conversion from the bin voltage on, from the results of
its three roundings. -/
theorem scaleVolts_eval (r v a b c : ℚ) (d : Nat) (ha : binary64.nearest (v - r) = a)
    (hb : binary64.nearest (a + 1 / 2) = b) (hc : binary64.nearest (b * 65535) = c)
    (ha1 : |a| ≤ 2 ^ (127 : Int)) (hb1 : |b| ≤ 2 ^ (127 : Int)) (hc1 : |c| ≤ 2 ^ (127 : Int))
    (hd : toUShort c = some d) : scaleVolts r v = some d := by
  unfold scaleVolts
  rw [fl64_eval _ _ ha ha1, Option.some_bind, fl64_eval _ _ hb hb1, Option.some_bind,
    fl64_eval _ _ hc hc1, Option.some_bind, hd]

theorem scaleVolts_bottom (r : ℚ) : scaleVolts r (r - 1 / 2) = some 0 := by
  apply scaleVolts_eval r (r - 1 / 2) (-(1 / 2)) 0 0 0
  · have : r - 1 / 2 - r = -(1 / 2) := by ring
    rw [this, nearest_neg_half]
  · have : -(1 / 2 : ℚ) + 1 / 2 = 0 := by ring
    rw [this, nearest_zero]
  · rw [zero_mul, nearest_zero]
  · rw [abs_le]; constructor <;> norm_num
  · rw [abs_le]; constructor <;> norm_num
  · rw [abs_le]; constructor <;> norm_num
  · exact toUShort_eval 0 0 (by norm_num) (by norm_num) (by decide)

theorem scaleVolts_top (r : ℚ) : scaleVolts r (r + 1 / 2) = some 65535 := by
  apply scaleVolts_eval r (r + 1 / 2) (1 / 2) 1 65535 65535
  · have : r + 1 / 2 - r = 1 / 2 := by ring
    rw [this, nearest_half]
  · have : (1 / 2 : ℚ) + 1 / 2 = 1 := by ring
    rw [this, nearest_one]
  · rw [one_mul, nearest_full_scale]
  · rw [abs_le]; constructor <;> norm_num
  · rw [abs_le]; constructor <;> norm_num
  · rw [abs_le]; constructor <;> norm_num
  · exact toUShort_eval 65535 65535 (by norm_num) (by norm_num) (by decide)

/-- The ends of the window in non-cascading mode: for `double` values of the
sample and of the input range, the bottom is stored as 0 and the top as
65535. -/
theorem storeSample_ends (r s : ℚ) (hr : |r| ≤ 1) (hrv : binary64.IsValue r)
    (hsv : binary64.IsValue s) :
    (s / 1000 = r - 1 / 2 → storeSample r s = some 0) ∧
    (s / 1000 = r + 1 / 2 → storeSample r s = some 65535) := by
  obtain ⟨R, hR⟩ := value_multiple r hrv
  obtain ⟨H, hH⟩ : ∃ H : Int, (1 / 2 : ℚ) = H * 2 ^ (-1074 : Int) := by
    refine ⟨2 ^ 1073, ?_⟩
    rw [Int.cast_pow, Int.cast_ofNat, ← zpow_natCast, ← zpow_add₀ (by norm_num)]
    norm_num
  have hr' := abs_le.mp hr
  constructor
  · intro h
    have hq : ∃ A : Int, s / 1000 = A * 2 ^ (-1074 : Int) :=
      ⟨R - H, by rw [h, hR, hH]; push_cast; ring⟩
    have hn := nearest_thousandth s (s / 1000) hsv hq (by ring)
    have hf : binary64.fl (s / 1000) = some (s / 1000) :=
      fl64_eval _ _ hn (by rw [h, abs_le]; constructor <;> norm_num <;> linarith)
    unfold storeSample
    rw [hf, Option.some_bind, h]
    exact scaleVolts_bottom r
  · intro h
    have hq : ∃ A : Int, s / 1000 = A * 2 ^ (-1074 : Int) :=
      ⟨R + H, by rw [h, hR, hH]; push_cast; ring⟩
    have hn := nearest_thousandth s (s / 1000) hsv hq (by ring)
    have hf : binary64.fl (s / 1000) = some (s / 1000) :=
      fl64_eval _ _ hn (by rw [h, abs_le]; constructor <;> norm_num <;> linarith)
    unfold storeSample
    rw [hf, Option.some_bind, h]
    exact scaleVolts_top r

/-! ## Evaluation of the conversion at particular samples -/

/-- Evaluation of the conversion of a bin of non-cascading mode. -/
theorem storeSample_eval (r s q : ℚ) (d : Nat) (hq : binary64.nearest (s / 1000) = q)
    (hq1 : |q| ≤ 2 ^ (127 : Int)) (h : scaleVolts r q = some d) : storeSample r s = some d := by
  unfold storeSample
  rw [fl64_eval _ _ hq hq1, Option.some_bind, h]

/-- Evaluation of the conversion of a pair of bins of cascading mode. -/
theorem storePair_eval (ty : FloatType) (r s0 s1 S q : ℚ) (d : Nat)
    (hS : ty.format.nearest (s0 + s1) = S) (hS1 : |S| ≤ 2 ^ (127 : Int))
    (hq : binary64.nearest (S / 2000) = q) (hq1 : |q| ≤ 2 ^ (127 : Int))
    (h : scaleVolts r q = some d) : storePair ty r s0 s1 = some d := by
  have hf : ty.format.fl (s0 + s1) = some S := by
    cases ty with
    | float => exact fl32_eval _ _ hS hS1
    | double => exact fl64_eval _ _ hS hS1
  unfold storePair
  rw [hf, Option.some_bind, fl64_eval _ _ hq hq1, Option.some_bind, h]

/-- A sample of 0 mV at input range 0: the scaled value 32767.5 is stored as
32767. -/
theorem storeSample_mid : storeSample 0 0 = some 32767 := by
  apply storeSample_eval 0 0 0 32767 (by rw [zero_div]; exact nearest_zero _)
    (by rw [abs_le]; constructor <;> norm_num)
  apply scaleVolts_eval 0 0 0 (1 / 2) (65535 / 2) 32767
  · rw [sub_zero]; exact nearest_zero _
  · rw [zero_add]; exact nearest_half
  · have : (1 / 2 : ℚ) * 65535 = 65535 / 2 := by ring
    rw [this]; exact nearest_half_scale
  · rw [abs_le]; constructor <;> norm_num
  · rw [abs_le]; constructor <;> norm_num
  · rw [abs_le]; constructor <;> norm_num
  · exact toUShort_eval _ 32767 (by norm_num) (by norm_num) (by decide)

/-- A `float` sample just above the first step of the window for the `float`
input range `0.5 - 2 ^ (-16)`: the exactly scaled value is above 1, and 0 is
stored. -/
theorem storeSample_first_step :
    storeSample (32767 / 65536) (16384251 / 70368744177664) = some 0 := by
  have hq : binary64.nearest ((16384251 / 70368744177664) / 1000)
      = (4503668621725139 / 19342813113834066795298816) := by
    rw [nearest_eval binary64
      ((16384251 / 70368744177664) / 1000)
      (-32) 4503668621725139 (by norm_num [le_abs]) (by norm_num [abs_lt])
      (by decide) (by norm_num [binary64, abs_lt])]
    norm_num [binary64]
  have ha : binary64.nearest ((4503668621725139 / 19342813113834066795298816) - (32767 / 65536))
      = (-(140733193322495 / 281474976710656)) := by
    rw [nearest_eval binary64
      ((4503668621725139 / 19342813113834066795298816) - (32767 / 65536))
      (-2) (-9006924372639680) (by norm_num [le_abs]) (by norm_num [abs_lt])
      (by decide) (by norm_num [binary64, abs_lt])]
    norm_num [binary64]
  have hb : binary64.nearest ((-(140733193322495 / 281474976710656)) + 1 / 2)
      = (4295032833 / 281474976710656) := by
    rw [nearest_eval binary64
      ((-(140733193322495 / 281474976710656)) + 1 / 2)
      (-16) 4503668347895808 (by norm_num [le_abs]) (by norm_num [abs_lt])
      (by decide) (by norm_num [binary64, abs_lt])]
    norm_num [binary64]
  have hc : binary64.nearest ((4295032833 / 281474976710656) * 65535)
      = (281474976710655 / 281474976710656) := by
    rw [nearest_eval binary64
      ((4295032833 / 281474976710656) * 65535)
      (-1) 9007199254740960 (by norm_num [le_abs]) (by norm_num [abs_lt])
      (by decide) (by norm_num [binary64, abs_lt])]
    norm_num [binary64]
  apply storeSample_eval _ _ _ 0 hq (by rw [abs_le]; constructor <;> norm_num)
  exact scaleVolts_eval _ _ _ _ _ 0 ha hb hc (by rw [abs_le]; constructor <;> norm_num)
    (by rw [abs_le]; constructor <;> norm_num) (by rw [abs_le]; constructor <;> norm_num)
    (toUShort_eval _ 0 (by norm_num) (by norm_num) (by decide))

/-- Two bins of 575 mV at input range 0.875 V: the exactly scaled mean is
13107, and 13106 is stored, whatever the element type. -/
theorem storePair_fifth (ty : FloatType) : storePair ty (7 / 8) 575 575 = some 13106 := by
  have h32 : binary32.nearest (575 + 575)
      = 1150 := by
    rw [nearest_eval binary32
      (575 + 575)
      10 9420800 (by norm_num [le_abs]) (by norm_num [abs_lt])
      (by decide) (by norm_num [binary32, abs_lt])]
    norm_num [binary32]
  have h64 : binary64.nearest (575 + 575)
      = 1150 := by
    rw [nearest_eval binary64
      (575 + 575)
      10 5057753487769600 (by norm_num [le_abs]) (by norm_num [abs_lt])
      (by decide) (by norm_num [binary64, abs_lt])]
    norm_num [binary64]
  have hq : binary64.nearest (1150 / 2000)
      = (2589569785738035 / 4503599627370496) := by
    rw [nearest_eval binary64
      (1150 / 2000)
      (-1) 5179139571476070 (by norm_num [le_abs]) (by norm_num [abs_lt])
      (by decide) (by norm_num [binary64, abs_lt])]
    norm_num [binary64]
  have ha : binary64.nearest ((2589569785738035 / 4503599627370496) - (7 / 8))
      = (-(1351079888211149 / 4503599627370496)) := by
    rw [nearest_eval binary64
      ((2589569785738035 / 4503599627370496) - (7 / 8))
      (-2) (-5404319552844596) (by norm_num [le_abs]) (by norm_num [abs_lt])
      (by decide) (by norm_num [binary64, abs_lt])]
    norm_num [binary64]
  have hb : binary64.nearest ((-(1351079888211149 / 4503599627370496)) + 1 / 2)
      = (900719925474099 / 4503599627370496) := by
    rw [nearest_eval binary64
      ((-(1351079888211149 / 4503599627370496)) + 1 / 2)
      (-3) 7205759403792792 (by norm_num [le_abs]) (by norm_num [abs_lt])
      (by decide) (by norm_num [binary64, abs_lt])]
    norm_num [binary64]
  have hc : binary64.nearest ((900719925474099 / 4503599627370496) * 65535)
      = (3602824726315007 / 274877906944) := by
    rw [nearest_eval binary64
      ((900719925474099 / 4503599627370496) * 65535)
      13 7205649452630014 (by norm_num [le_abs]) (by norm_num [abs_lt])
      (by decide) (by norm_num [binary64, abs_lt])]
    norm_num [binary64]
  have hS : ty.format.nearest (575 + 575) = 1150 := by
    cases ty with
    | float => exact h32
    | double => exact h64
  apply storePair_eval ty _ _ _ 1150 _ 13106 hS (by rw [abs_le]; constructor <;> norm_num) hq
    (by rw [abs_le]; constructor <;> norm_num)
  exact scaleVolts_eval _ _ _ _ _ 13106 ha hb hc (by rw [abs_le]; constructor <;> norm_num)
    (by rw [abs_le]; constructor <;> norm_num) (by rw [abs_le]; constructor <;> norm_num)
    (toUShort_eval _ 13106 (by norm_num) (by norm_num) (by decide))

/-- Two `float` bins at input range 0.25 V whose sum is not a `float` value:
the sum is rounded before it is scaled, and 43997 is stored. -/
theorem storePair_rounded_sum :
    storePair FloatType.float (1 / 4) (7482989 / 16384) (12647693 / 32768) = some 43997 := by
  have hS : binary32.nearest ((7482989 / 16384) + (12647693 / 32768))
      = (3451709 / 4096) := by
    rw [nearest_eval_tie binary32
      ((7482989 / 16384) + (12647693 / 32768))
      9 13806836 (by norm_num [le_abs]) (by norm_num [abs_lt])
      (by decide) (Or.inl (by norm_num [binary32])) (by decide)]
    norm_num [binary32]
  have hq : binary64.nearest ((3451709 / 4096) / 2000)
      = (3795194181199069 / 9007199254740992) := by
    rw [nearest_eval binary64
      ((3451709 / 4096) / 2000)
      (-2) 7590388362398138 (by norm_num [le_abs]) (by norm_num [abs_lt])
      (by decide) (by norm_num [binary64, abs_lt])]
    norm_num [binary64]
  have ha : binary64.nearest ((3795194181199069 / 9007199254740992) - (1 / 4))
      = (1543394367513821 / 9007199254740992) := by
    rw [nearest_eval binary64
      ((3795194181199069 / 9007199254740992) - (1 / 4))
      (-3) 6173577470055284 (by norm_num [le_abs]) (by norm_num [abs_lt])
      (by decide) (by norm_num [binary64, abs_lt])]
    norm_num [binary64]
  have hb : binary64.nearest ((1543394367513821 / 9007199254740992) + 1 / 2)
      = (6046993994884317 / 9007199254740992) := by
    rw [nearest_eval binary64
      ((1543394367513821 / 9007199254740992) + 1 / 2)
      (-1) 6046993994884317 (by norm_num [le_abs]) (by norm_num [abs_lt])
      (by decide) (by norm_num [binary64, abs_lt])]
    norm_num [binary64]
  have hc : binary64.nearest ((6046993994884317 / 9007199254740992) * 65535)
      = (6046901725078487 / 137438953472) := by
    rw [nearest_eval binary64
      ((6046993994884317 / 9007199254740992) * 65535)
      15 6046901725078487 (by norm_num [le_abs]) (by norm_num [abs_lt])
      (by decide) (by norm_num [binary64, abs_lt])]
    norm_num [binary64]
  apply storePair_eval FloatType.float _ _ _ (3451709 / 4096) _ 43997 hS
    (by rw [abs_le]; constructor <;> norm_num) hq (by rw [abs_le]; constructor <;> norm_num)
  exact scaleVolts_eval _ _ _ _ _ 43997 ha hb hc (by rw [abs_le]; constructor <;> norm_num)
    (by rw [abs_le]; constructor <;> norm_num) (by rw [abs_le]; constructor <;> norm_num)
    (toUShort_eval _ 43997 (by norm_num) (by norm_num) (by decide))

/-- The exact mean of the same two bins, converted as a bin of non-cascading
mode: 43996 is stored. -/
theorem storeSample_exact_mean :
    storeSample (1 / 4) (27613671 / 65536) = some 43996 := by
  have hq : binary64.nearest ((27613671 / 65536) / 1000)
      = (7590388087520231 / 18014398509481984) := by
    rw [nearest_eval binary64
      ((27613671 / 65536) / 1000)
      (-2) 7590388087520231 (by norm_num [le_abs]) (by norm_num [abs_lt])
      (by decide) (by norm_num [binary64, abs_lt])]
    norm_num [binary64]
  have ha : binary64.nearest ((7590388087520231 / 18014398509481984) - (1 / 4))
      = (3086788460149735 / 18014398509481984) := by
    rw [nearest_eval binary64
      ((7590388087520231 / 18014398509481984) - (1 / 4))
      (-3) 6173576920299470 (by norm_num [le_abs]) (by norm_num [abs_lt])
      (by decide) (by norm_num [binary64, abs_lt])]
    norm_num [binary64]
  have hb : binary64.nearest ((3086788460149735 / 18014398509481984) + 1 / 2)
      = (1511748464361341 / 2251799813685248) := by
    rw [nearest_eval_tie binary64
      ((3086788460149735 / 18014398509481984) + 1 / 2)
      (-1) 6046993857445364 (by norm_num [le_abs]) (by norm_num [abs_lt])
      (by decide) (Or.inl (by norm_num [binary64])) (by decide)]
    norm_num [binary64]
  have hc : binary64.nearest ((1511748464361341 / 2251799813685248) * 65535)
      = (6046901587641631 / 137438953472) := by
    rw [nearest_eval binary64
      ((1511748464361341 / 2251799813685248) * 65535)
      15 6046901587641631 (by norm_num [le_abs]) (by norm_num [abs_lt])
      (by decide) (by norm_num [binary64, abs_lt])]
    norm_num [binary64]
  apply storeSample_eval _ _ _ 43996 hq (by rw [abs_le]; constructor <;> norm_num)
  exact scaleVolts_eval _ _ _ _ _ 43996 ha hb hc (by rw [abs_le]; constructor <;> norm_num)
    (by rw [abs_le]; constructor <;> norm_num) (by rw [abs_le]; constructor <;> norm_num)
    (toUShort_eval _ 43996 (by norm_num) (by norm_num) (by decide))

/-! ## Lemmas on `SaveWaveforms` -/

theorem packBuffer_buffer_size (drs : DRS) (g : Globals) (x : Nat) :
    packBuffer drs { g with buffer_size := x } = packBuffer drs g := rfl

theorem SaveWaveforms_buffer (drs : DRS) (fd n : Int) (g : Globals) (hfd : fd ≠ 0) :
    (SaveWaveforms drs fd n g).buffer = packBuffer drs g := by
  unfold SaveWaveforms
  simp only [hfd, ne_eq, not_false_eq_true, if_true]
  split_ifs <;> rfl

theorem SaveWaveforms_size (drs : DRS) (fd n : Int) (g : Globals) (hfd : fd ≠ 0) :
    (SaveWaveforms drs fd n g).size = packedSize (packBuffer drs g) := by
  unfold SaveWaveforms
  simp only [hfd, ne_eq, not_false_eq_true, if_true]
  split_ifs <;> rfl

theorem SaveWaveforms_buffer_size (drs : DRS) (fd n : Int) (g : Globals) (hfd : fd ≠ 0) :
    (SaveWaveforms drs fd n g).g.buffer_size
      = if g.buffer_size = 0 then scratchSize g.m_nBoards g.m_waveDepth else g.buffer_size := by
  unfold SaveWaveforms
  simp only [hfd, ne_eq, not_false_eq_true, if_true]
  split_ifs <;> rfl

theorem SaveWaveforms_aborted (drs : DRS) (fd n : Int) (g : Globals) (hfd : fd ≠ 0) :
    (SaveWaveforms drs fd n g).aborted
      = decide ((SaveWaveforms drs fd n g).g.buffer_size < (SaveWaveforms drs fd n g).size) := by
  unfold SaveWaveforms
  simp only [hfd, ne_eq, not_false_eq_true, if_true]
  split_ifs <;> simp_all

theorem SaveWaveforms_serial (drs : DRS) (fd n : Int) (g : Globals) :
    (SaveWaveforms drs fd n g).g.m_evSerial
      = if (SaveWaveforms drs fd n g).ret = 1 then incInt32 g.m_evSerial else g.m_evSerial := by
  unfold SaveWaveforms
  by_cases hfd : fd = 0
  · simp [hfd]
  · by_cases hbs : g.buffer_size = 0
    · by_cases hsz : packedSize (packBuffer drs g) ≤ scratchSize g.m_nBoards g.m_waveDepth
      · by_cases hn : n = (packedSize (packBuffer drs g) : Int)
        · simp [hfd, hbs, packBuffer_buffer_size, hsz, hn]
        · simp [hfd, hbs, packBuffer_buffer_size, hsz, hn]
      · simp [hfd, hbs, packBuffer_buffer_size, hsz]
    · by_cases hsz : packedSize (packBuffer drs g) ≤ g.buffer_size
      · by_cases hn : n = (packedSize (packBuffer drs g) : Int)
        · simp [hfd, hbs, hsz, hn]
        · simp [hfd, hbs, hsz, hn]
      · simp [hfd, hbs, hsz]

theorem scratchSize_eq (nB d : Nat) :
    scratchSize nB d = 4 + nB * (4 + 4 * (4 + 4 * d)) + 24 + nB * (8 + 4 * (4 + 2 * d)) := by
  unfold scratchSize
  ring

theorem packSamples_plain_get (ty : FloatType) (r : ℚ) (w : Nat → ℚ) (j : Nat)
    (hj : j < 1024) :
    (packSamples ty 1024 r w 1024 0)[j]? = some (Field.u16 (storeSample r (w j))) := by
  rw [packSamples_plain ty 1024 r w (by decide)]
  simp [List.getElem?_map, List.getElem?_range, hj]

theorem packSamples_cascaded_full (ty : FloatType) (r : ℚ) (w : Nat → ℚ) :
    packSamples ty 2048 r w 2048 0 =
      (List.range 1024).map
        (fun j => Field.u16 (storePair ty r (w (2 * j)) (w (2 * j + 1)))) := by
  have hm : min 2048 ((2048 - 0 + 1) / 2) = 1024 := by decide
  rw [packSamples_cascaded, hm]
  apply List.map_congr_left
  intro j _
  rw [Nat.zero_add]

/-- For at most `MAX_N_BOARDS` boards and a depth of at most 2048 the size of
the scratch buffer is below `2 ^ 31`, so the `int` arithmetic of lines 278-279
is exact. -/
theorem scratchSize_fits_int (m_nBoards m_waveDepth : Nat) (hn : m_nBoards ≤ MAX_N_BOARDS)
    (hd : m_waveDepth ≤ 2048) : scratchSize m_nBoards m_waveDepth < 2147483648 := by
  unfold MAX_N_BOARDS at hn
  unfold scratchSize
  have h1 : m_nBoards * (4 + 4 * (4 + m_waveDepth * 4)) ≤ 4 * (4 + 4 * (4 + 2048 * 4)) :=
    Nat.mul_le_mul hn (by omega)
  have h2 : m_nBoards * (8 + 4 * (4 + m_waveDepth * 2)) ≤ 4 * (8 + 4 * (4 + 2048 * 2)) :=
    Nat.mul_le_mul hn (by omega)
  omega

/-! ## Lemmas on the serial fields of a record -/

theorem serialFields_skip (f : Field) (fs : List Field) (h : f ≠ Field.tag "B#") :
    serialFields (f :: fs) = serialFields fs := by
  cases f with
  | tag s =>
    have hs : s ≠ "B#" := fun e => h (by rw [e])
    cases fs with
    | nil => simp [serialFields]
    | cons f2 fs2 => cases f2 <;> simp [serialFields, hs]
  | u16 v => cases fs <;> simp [serialFields]
  | i32 v => cases fs <;> simp [serialFields]
  | f32 v => cases fs <;> simp [serialFields]

theorem serialFields_serial (v : Option Nat) (fs : List Field) :
    serialFields (Field.tag "B#" :: Field.u16 v :: fs) = v :: serialFields fs := by
  rw [serialFields]
  simp only [if_true]
  rw [serialFields_skip _ _ (by simp)]

theorem serialFields_append (xs ys : List Field) (h : ∀ f ∈ xs, f ≠ Field.tag "B#") :
    serialFields (xs ++ ys) = serialFields ys := by
  induction xs with
  | nil => rfl
  | cons x xs ih =>
    rw [List.cons_append, serialFields_skip _ _ (h x (List.mem_cons_self _ _))]
    exact ih (fun f hf => h f (List.mem_cons_of_mem _ hf))

theorem serialFields_none (xs : List Field) (h : ∀ f ∈ xs, f ≠ Field.tag "B#") :
    serialFields xs = [] := by
  have := serialFields_append xs [] h
  rwa [List.append_nil] at this

theorem channelTag_ne (n : Nat) : Field.tag (channelTag n) ≠ Field.tag "B#" := by
  intro h
  have h2 : channelTag n = "B#" := by injection h
  have h3 := congrArg String.length h2
  rw [channelTag_length] at h3
  exact absurd h3 (by decide)

theorem packSamples_mem (ty : FloatType) (d : Nat) (r : ℚ) (w : Nat → ℚ) :
    ∀ fuel j f, f ∈ packSamples ty d r w fuel j → ∃ v, f = Field.u16 v := by
  intro fuel
  induction fuel with
  | zero => intro j f hf; simp [packSamples] at hf
  | succ fuel ih =>
    intro j f hf
    rw [packSamples] at hf
    split_ifs at hf with h1 h2
    · rcases List.mem_cons.mp hf with h | h
      · exact ⟨_, h⟩
      · exact ih _ _ h
    · rcases List.mem_cons.mp hf with h | h
      · exact ⟨_, h⟩
      · exact ih _ _ h
    · simp at hf

theorem packEventChannel_no_serial (g : Globals) (b i : Nat) :
    ∀ f ∈ packEventChannel g b i, f ≠ Field.tag "B#" := by
  intro f hf
  rw [packEventChannel] at hf
  rcases List.mem_cons.mp hf with h | h
  · rw [h]; exact channelTag_ne _
  · obtain ⟨v, hv⟩ := packSamples_mem _ _ _ _ _ _ _ h
    rw [hv]; simp

theorem packEventBoard_serial (drs : DRS) (g : Globals) (b : Nat) :
    serialFields (packEventBoard drs g b)
      = [some (intToUShort (drs.GetBoard b).GetBoardSerialNumber)] := by
  have hno : ∀ f ∈ Field.tag "T#" :: Field.u16 (some (intToUShort (g.m_triggerCell b)))
      :: ((List.range 4).map (packEventChannel g b)).flatten, f ≠ Field.tag "B#" := by
    intro f hf
    rcases List.mem_cons.mp hf with h | h
    · rw [h]; decide
    · rcases List.mem_cons.mp h with h | h
      · rw [h]; simp
      · obtain ⟨l, hl, hfl⟩ := List.mem_flatten.mp h
        obtain ⟨i, _, hi⟩ := List.mem_map.mp hl
        rw [← hi] at hfl
        exact packEventChannel_no_serial g b i f hfl
  rw [packEventBoard]
  simp only [List.cons_append, List.nil_append]
  rw [serialFields_serial, serialFields_none _ hno]

theorem packBuffer_serial (drs : DRS) (g : Globals) (h1 : g.m_nBoards = 1)
    (hs : g.m_evSerial ≠ 1) :
    serialFields (packBuffer drs g)
      = [some (intToUShort (drs.GetBoard 0).GetBoardSerialNumber)] := by
  have hh : ∀ f ∈ packEventHeader g, f ≠ Field.tag "B#" := by
    intro f hf
    simp only [packEventHeader, List.mem_cons, List.mem_singleton, List.not_mem_nil,
      or_false] at hf
    rcases hf with h | h | h | h | h | h | h | h | h | h <;> rw [h] <;> simp
  rw [packBuffer, packCalibration, if_neg hs, List.nil_append, h1,
    serialFields_append _ _ hh]
  have hr : List.range 1 = [0] := rfl
  simp only [hr, List.map_cons, List.map_nil, List.flatten_cons, List.flatten_nil,
    List.append_nil]
  exact packEventBoard_serial drs g 0

theorem ReadWaveforms_nBoards (drs : DRS) (now : TIMESTAMP) (g : Globals) :
    (ReadWaveforms drs now g).m_nBoards = 1 := by
  unfold ReadWaveforms
  by_cases h : (drs.GetBoard g.m_board).GetBoardType = 9
  · have hr : List.range 1 = [0] := rfl
    simp [h, hr, readSlot]
  · simp [h]

theorem ReadWaveforms_evSerial (drs : DRS) (now : TIMESTAMP) (g : Globals) :
    (ReadWaveforms drs now g).m_evSerial = g.m_evSerial := by
  unfold ReadWaveforms
  by_cases h : (drs.GetBoard g.m_board).GetBoardType = 9
  · have hr : List.range 1 = [0] := rfl
    simp [h, hr, readSlot]
  · simp [h]

/-- For an open file and an event serial other than 1, the record written
after `ReadWaveforms` carries the serial number of the board at index 0,
whatever board `m_board` selects. -/
theorem record_carries_master_serial (drs : DRS) (now : TIMESTAMP) (fd n : Int) (g : Globals)
    (hfd : fd ≠ 0) (hs : g.m_evSerial ≠ 1) :
    serialFields (SaveWaveforms drs fd n (ReadWaveforms drs now g)).buffer
      = [some (intToUShort (drs.GetBoard 0).GetBoardSerialNumber)] := by
  rw [SaveWaveforms_buffer _ _ _ _ hfd]
  exact packBuffer_serial drs _ (ReadWaveforms_nBoards drs now g)
    (by rw [ReadWaveforms_evSerial]; exact hs)

/-! ## Lemmas on sequences of `SaveWaveforms` calls -/

theorem packBuffer_head (drs : DRS) (g : Globals) :
    (packBuffer drs g).head?
      = some (Field.tag (if g.m_evSerial = 1 then "TIME" else "EHDR")) := by
  rw [packBuffer, packCalibration]
  split_ifs <;> rfl

theorem incInt32_small (v : Int) (h0 : 1 ≤ v) (h1 : v < 2147483647) : incInt32 v = v + 1 := by
  unfold incInt32
  omega

theorem fullWrites_cons (r : SaveResult) (rs : List SaveResult) :
    fullWrites (r :: rs) = (if r.ret = 1 then 1 else 0) + fullWrites rs := by
  unfold fullWrites
  by_cases h : r.ret = 1
  · simp [List.filter_cons, h]; omega
  · simp [List.filter_cons, h]

theorem saveSequence_head (fd : Int) (hfd : fd ≠ 0) :
    ∀ (calls : List (DRS × Int × Globals)) (serial : Int) (buffer_size k : Nat) (r : SaveResult),
      1 ≤ serial → serial + calls.length ≤ 2147483647 →
      (saveSequence fd calls serial buffer_size)[k]? = some r →
      r.buffer.head? = some (Field.tag
        (if serial + fullWrites ((saveSequence fd calls serial buffer_size).take k) = 1
          then "TIME" else "EHDR")) := by
  intro calls
  induction calls with
  | nil =>
    intro serial bs k r _ _ hk
    simp [saveSequence] at hk
  | cons c cs ih =>
    intro serial bs k r h1 h2 hk
    obtain ⟨drs, n, g⟩ := c
    rw [saveSequence] at hk ⊢
    rw [List.length_cons] at h2
    push_cast at h2
    cases k with
    | zero =>
      simp only [List.getElem?_cons_zero, Option.some.injEq] at hk
      rw [← hk, SaveWaveforms_buffer _ _ _ _ hfd, packBuffer_head]
      simp [fullWrites]
    | succ k =>
      simp only [List.getElem?_cons_succ] at hk
      by_cases hab : (SaveWaveforms drs fd n
          { g with m_evSerial := serial, buffer_size := bs }).aborted = true
      · simp [hab] at hk
      · simp only [hab, Bool.false_eq_true, if_false] at hk ⊢
        have hser := SaveWaveforms_serial drs fd n
          { g with m_evSerial := serial, buffer_size := bs }
        simp only at hser
        rw [List.take_succ_cons, fullWrites_cons]
        by_cases hret : (SaveWaveforms drs fd n
            { g with m_evSerial := serial, buffer_size := bs }).ret = 1
        · rw [if_pos hret, incInt32_small serial h1 (by omega)] at hser
          have := ih (serial + 1) _ k r (by omega) (by omega) (by rw [← hser]; exact hk)
          rw [this, if_pos hret, hser]
          push_cast
          rw [add_assoc]
        · rw [if_neg hret] at hser
          have := ih serial _ k r h1 (by omega) (by rw [← hser]; exact hk)
          rw [this, if_neg hret, hser]
          simp

theorem SaveWaveforms_ret (drs : DRS) (fd n : Int) (g : Globals) (hfd : fd ≠ 0) :
    (SaveWaveforms drs fd n g).ret
      = if (SaveWaveforms drs fd n g).aborted = true then 0
        else if n = ((SaveWaveforms drs fd n g).size : Int) then 1 else -1 := by
  unfold SaveWaveforms
  by_cases hbs : g.buffer_size = 0
  · by_cases hsz : packedSize (packBuffer drs g) ≤ scratchSize g.m_nBoards g.m_waveDepth
    · by_cases hn : n = (packedSize (packBuffer drs g) : Int)
      · simp [hfd, hbs, packBuffer_buffer_size, hsz, hn]
      · simp [hfd, hbs, packBuffer_buffer_size, hsz, hn]
    · simp [hfd, hbs, packBuffer_buffer_size, hsz]
  · by_cases hsz : packedSize (packBuffer drs g) ≤ g.buffer_size
    · by_cases hn : n = (packedSize (packBuffer drs g) : Int)
      · simp [hfd, hbs, hsz, hn]
      · simp [hfd, hbs, hsz, hn]
    · simp [hfd, hbs, hsz]

/-- The sizes of a call on an open file at depth 1024 or 2048 with a scratch
buffer that is unsized or sized for the present topology. -/
theorem SaveWaveforms_sized (drs : DRS) (fd n : Int) (g : Globals) (hfd : fd ≠ 0)
    (hd : g.m_waveDepth = 1024 ∨ g.m_waveDepth = 2048)
    (hb : g.buffer_size = 0 ∨ g.buffer_size = scratchSize g.m_nBoards g.m_waveDepth) :
    (SaveWaveforms drs fd n g).size
        = 24 + g.m_nBoards * (8 + 4 * (4 + 2 * 1024))
          + (if g.m_evSerial = 1 then 4 + g.m_nBoards * (4 + 4 * (4 + 4 * 1024)) else 0) ∧
    (SaveWaveforms drs fd n g).g.buffer_size
        = 4 + g.m_nBoards * (4 + 4 * (4 + 4 * g.m_waveDepth))
          + 24 + g.m_nBoards * (8 + 4 * (4 + 2 * g.m_waveDepth)) ∧
    (SaveWaveforms drs fd n g).size ≤ (SaveWaveforms drs fd n g).g.buffer_size ∧
    (SaveWaveforms drs fd n g).aborted = false ∧
    ((SaveWaveforms drs fd n g).size = (SaveWaveforms drs fd n g).g.buffer_size ↔
      g.m_evSerial = 1 ∧ (g.m_waveDepth = 1024 ∨ g.m_nBoards = 0)) := by
  have hbs : (SaveWaveforms drs fd n g).g.buffer_size
      = 4 + g.m_nBoards * (4 + 4 * (4 + 4 * g.m_waveDepth))
        + 24 + g.m_nBoards * (8 + 4 * (4 + 2 * g.m_waveDepth)) := by
    rw [SaveWaveforms_buffer_size drs fd n g hfd, ← scratchSize_eq]
    rcases hb with hb | hb
    · rw [if_pos hb]
    · split_ifs with h0
      · rfl
      · exact hb
  have hsz := SaveWaveforms_size drs fd n g hfd
  rw [packBuffer_size drs g hd] at hsz
  have hab := SaveWaveforms_aborted drs fd n g hfd
  rw [hab, hbs, hsz]
  have hnn : 0 ≤ g.m_nBoards := Nat.zero_le _
  refine ⟨rfl, rfl, ?_, ?_, ?_⟩
  · rcases hd with hd | hd <;> rw [hd] <;> split_ifs <;> omega
  · rw [decide_eq_false_iff_not]
    rcases hd with hd | hd <;> rw [hd] <;> split_ifs <;> omega
  · rcases hd with hd | hd <;> rw [hd] <;> split_ifs with h1 <;> simp [h1] <;> omega

/-! ## Lemmas on the event loop -/

theorem eventPass_not_busy (env : Env) (fuel : Nat) (s : LoopState)
    (hb : env.IsBusy s.polls = false) :
    eventPass env (fuel + 1) s = some (false,
      { readBoards env env.GetNumberOfBoards 0
          { s with polls := s.polls + 1, log := s.log ++ startBoards env } with
        i := (readBoards env env.GetNumberOfBoards 0
          { s with polls := s.polls + 1, log := s.log ++ startBoards env }).i + 1 }) := by
  simp [eventPass, waitForTrigger, hb]

theorem readBoards_spurious (env : Env) :
    ∀ (m fuel j s), j + m < env.GetNumberOfBoards → m < fuel →
      (∀ k, k < m → env.IsBusy (s.polls + k) = false) → env.IsBusy (s.polls + m) = true →
      readBoards env fuel j s =
        { i := s.i - 1, polls := s.polls + m + 1, ticks := s.ticks,
          log := s.log ++ ((List.range m).map
            (fun k => [Action.ReadWaveforms (j + k), Action.SaveWaveforms (j + k)])).flatten } := by
  intro m
  induction m with
  | zero =>
    intro fuel j s hj hf _ hb
    obtain ⟨f, rfl⟩ : ∃ f, fuel = f + 1 := ⟨fuel - 1, by omega⟩
    rw [readBoards, if_pos (by omega), if_pos (by simpa using hb)]
    simp
  | succ m ih =>
    intro fuel j s hj hf hfree hb
    obtain ⟨f, rfl⟩ : ∃ f, fuel = f + 1 := ⟨fuel - 1, by omega⟩
    have h0 : env.IsBusy s.polls = false := by simpa using hfree 0 (by omega)
    rw [readBoards, if_pos (by omega), if_neg (by simp [h0])]
    rw [ih f (j + 1) _ (by omega) (by omega)
      (fun k hk => by
        have := hfree (k + 1) (by omega)
        simpa [Nat.add_assoc, Nat.add_comm 1 k] using this)
      (by simpa [Nat.add_assoc, Nat.add_comm 1 m] using hb)]
    rw [List.range_succ_eq_map]
    simp only [List.map_cons, List.map_map, List.flatten_cons, Function.comp_def, Nat.add_zero,
      List.append_assoc, List.cons_append, List.nil_append]
    have e : ∀ k, j + 1 + k = j + (k + 1) := by intro k; omega
    simp only [e, Nat.succ_eq_add_one]
    congr 1
    omega

/-- A pass of the event loop in which the master is found not busy in the
trigger wait and before boards `0 .. j-1` are read, and busy before board `j`
is read: the event counter is unchanged after the pass, and the boards read
and saved are exactly `0 .. j-1`. -/
theorem eventPass_spurious (env : Env) (fuel : Nat) (s : LoopState) (j : Nat)
    (hj : j < env.GetNumberOfBoards) (hw : env.IsBusy s.polls = false)
    (hfree : ∀ k, k < j → env.IsBusy (s.polls + 1 + k) = false)
    (hb : env.IsBusy (s.polls + 1 + j) = true) :
    eventPass env (fuel + 1) s = some (false,
      { i := s.i, polls := s.polls + j + 2, ticks := s.ticks,
        log := s.log ++ startBoards env ++ ((List.range j).map
          (fun k => [Action.ReadWaveforms k, Action.SaveWaveforms k])).flatten }) := by
  rw [eventPass_not_busy env fuel s hw,
    readBoards_spurious env j env.GetNumberOfBoards 0 _ (by omega) hj hfree hb]
  simp only [Nat.zero_add, Option.some.injEq, Prod.mk.injEq, true_and, LoopState.mk.injEq,
    and_true]
  constructor
  · omega
  · omega

/-! ## Claims on the trigger configuration -/

/-- C7. For every trigger configuration and every board that `setTrigger`
accepts (board type at least 8), exactly one source mask is passed to
`SetTriggerSource`. With OR logic bit `i` of the mask is set iff source `i` is
enabled (`i < 5`) and every bit from 5 upwards is clear; with AND logic bit
`i + 8` is set iff source `i` is enabled and every bit below 8 or from 13
upwards is clear. No source has both bit `i` and bit `i + 8` set. -/
theorem C7_trigger_source_mask (boardType : Int) (t : trigger_t) (h : 8 ≤ boardType) :
    ∃ m : Nat, sourceArgs (setTrigger boardType t).2 = [m] ∧
      (t.triggerLogic = false →
        (∀ i : Fin 5, m.testBit i.val = t.triggerSource i) ∧
        (∀ k, 5 ≤ k → m.testBit k = false)) ∧
      (t.triggerLogic = true →
        (∀ i : Fin 5, m.testBit (i.val + 8) = t.triggerSource i) ∧
        (∀ k, k < 8 ∨ 13 ≤ k → m.testBit k = false)) ∧
      (∀ i : Fin 5, ¬ (m.testBit i.val = true ∧ m.testBit (i.val + 8) = true)) := by
  refine ⟨triggerSourceBits t, sourceArgs_setTrigger boardType t h, ?_, ?_, ?_⟩
  · intro hl
    constructor
    · intro i
      rw [triggerSourceBits_or t hl, dif_pos i.isLt]
    · intro k hk
      rw [triggerSourceBits_or t hl, dif_neg (by omega)]
  · intro hl
    constructor
    · intro i
      have hi := i.isLt
      rw [triggerSourceBits_and t hl, dif_pos (by omega)]
      congr 1
    · intro k hk
      rw [triggerSourceBits_and t hl, dif_neg (by omega)]
  · intro i
    have hi := i.isLt
    cases hl : t.triggerLogic
    · rw [triggerSourceBits_or t hl (i.val + 8), dif_neg (by omega)]
      simp
    · rw [triggerSourceBits_and t hl i.val, dif_neg (by omega)]
      simp

/-- Witness of C7 for a board of type 9: the compiled-in configuration (AND
logic, sources 1 and 2) and the same configuration with OR logic. -/
theorem C7_trigger_source_mask_witness :
    (8 : Int) ≤ 9 ∧ trigger.triggerLogic = true ∧
    { trigger with triggerLogic := false }.triggerLogic = false ∧
    (∃ m : Nat, sourceArgs (setTrigger 9 trigger).2 = [m] ∧
      (∀ i : Fin 5, m.testBit (i.val + 8) = trigger.triggerSource i) ∧
      (∀ k, k < 8 ∨ 13 ≤ k → m.testBit k = false)) ∧
    (∃ m : Nat, sourceArgs (setTrigger 9 { trigger with triggerLogic := false }).2 = [m] ∧
      (∀ i : Fin 5, m.testBit i.val = trigger.triggerSource i) ∧
      (∀ k, 5 ≤ k → m.testBit k = false)) := by
  refine ⟨by decide, rfl, rfl, ?_, ?_⟩
  · obtain ⟨m, h1, _, h2, _⟩ := C7_trigger_source_mask 9 trigger (by decide)
    exact ⟨m, h1, h2 rfl⟩
  · obtain ⟨m, h1, h2, _, _⟩ :=
      C7_trigger_source_mask 9 { trigger with triggerLogic := false } (by decide)
    exact ⟨m, h1, h2 rfl⟩

/-- C8. For every trigger configuration and every board that `setTrigger`
accepts (board type at least 8), exactly one delay is passed to
`SetTriggerDelayNs`; it equals `sampleWindow - triggerDelay`, where
`sampleWindow = (1 / SAMPLESPEED) * 1024`, and it is non-negative whenever
`triggerDelay ≤ sampleWindow` (exact rational arithmetic). -/
theorem C8_trigger_delay (boardType : Int) (t : trigger_t) (h : 8 ≤ boardType) :
    delayArgs (setTrigger boardType t).2 = [sampleWindow - t.triggerDelay] ∧
      sampleWindow = (1 / SAMPLESPEED) * 1024 ∧
      (t.triggerDelay ≤ sampleWindow → 0 ≤ sampleWindow - t.triggerDelay) := by
  refine ⟨delayArgs_setTrigger boardType t h, rfl, ?_⟩
  intro hd
  linarith

/-- Witness of C8 on the compiled-in configuration, for a board of type 9: the
delay of 60 ns lies within the window of 204.8 ns and 144.8 ns is passed. -/
theorem C8_trigger_delay_witness :
    (8 : Int) ≤ 9 ∧ trigger.triggerDelay ≤ sampleWindow ∧
    delayArgs (setTrigger 9 trigger).2 = [sampleWindow - trigger.triggerDelay] ∧
    0 ≤ sampleWindow - trigger.triggerDelay ∧
    sampleWindow - trigger.triggerDelay = 724 / 5 := by
  have hw : trigger.triggerDelay ≤ sampleWindow := by
    norm_num [trigger, sampleWindow, timeResolution, SAMPLESPEED]
  refine ⟨by decide, hw, (C8_trigger_delay 9 trigger (by decide)).1,
    (C8_trigger_delay 9 trigger (by decide)).2.2 hw, ?_⟩
  norm_num [trigger, sampleWindow, timeResolution, SAMPLESPEED]

/-! ## Claims on the stored samples -/

/-- C3, counterexample. In non-cascading mode with input range 0, a sample of
0 mV lies in the window, its scaled value is 32767.5, and `SaveWaveforms`
stores 32767, whereas rounding gives 32768. -/
theorem C3_rounding_counterexample :
    (0 : ℚ) - 1 / 2 ≤ 0 / 1000 ∧ (0 : ℚ) / 1000 ≤ 0 + 1 / 2 ∧
    (∀ ty, (packSamples ty 1024 0 (fun _ => 0) 1024 0)[0]? = some (Field.u16 (some 32767))) ∧
    round ((((0 : ℚ) / 1000 - 0) + 1 / 2) * 65535) = 32768 := by
  refine ⟨by norm_num, by norm_num, ?_, ?_⟩
  · intro ty
    rw [packSamples_plain_get ty 0 (fun _ => 0) 0 (by decide), storeSample_mid]
  · norm_num [round_eq]

/-- C3, amended. In non-cascading mode (depth 1024), for an input range `r`
with `|r| ≤ 1` and every bin `j` whose sample `s = w j` (in mV) satisfies
`r - 0.5 ≤ s / 1000 ≤ r + 0.5`, a 16-bit value `d` is stored for the bin; it is
the scaling evaluated in `double` with its fraction discarded, and with
`x = ((s / 1000 - r) + 0.5) * 65535` exact it satisfies
`x - 1 - 2 ^ (-33) < d ≤ x + 2 ^ (-33)`. When `r` and `s` are `double` values,
the bottom of the window is stored as 0 and the top as 65535. -/
theorem C3_stored_value_truncated (ty : FloatType) (r : ℚ) (w : Nat → ℚ) (j : Nat)
    (hj : j < 1024) (hr : |r| ≤ 1)
    (hlo : r - 1 / 2 ≤ w j / 1000) (hhi : w j / 1000 ≤ r + 1 / 2) :
    (∃ d : Nat, (packSamples ty 1024 r w 1024 0)[j]? = some (Field.u16 (some d)) ∧
      (d : ℚ) ≤ ((w j / 1000 - r) + 1 / 2) * 65535 + 1 / 2 ^ 33 ∧
      ((w j / 1000 - r) + 1 / 2) * 65535 - 1 - 1 / 2 ^ 33 < d) ∧
    (binary64.IsValue r → binary64.IsValue (w j) →
      (w j / 1000 = r - 1 / 2 →
        (packSamples ty 1024 r w 1024 0)[j]? = some (Field.u16 (some 0))) ∧
      (w j / 1000 = r + 1 / 2 →
        (packSamples ty 1024 r w 1024 0)[j]? = some (Field.u16 (some 65535)))) := by
  rw [packSamples_plain_get ty r w j hj]
  constructor
  · obtain ⟨d, hd, hd1, hd2⟩ := storeSample_bounds r (w j) hr hlo hhi
    exact ⟨d, by rw [hd], hd1, hd2⟩
  · intro hrv hsv
    obtain ⟨h1, h2⟩ := storeSample_ends r (w j) hr hrv hsv
    exact ⟨fun h => by rw [h1 h], fun h => by rw [h2 h]⟩

/-- Witness of C3 (amended): input range 0.875 V. A bin of 575 mV, whose exact
scaled value is 13107, is stored as 13106 or 13107; a bin of 1375 mV (the top
of the window) is stored as 65535 and a bin of 375 mV (the bottom) as 0. -/
theorem C3_stored_value_truncated_witness :
    (7 < 1024) ∧ |(7 / 8 : ℚ)| ≤ 1 ∧ binary64.IsValue (7 / 8) ∧ binary64.IsValue 1375 ∧
    binary64.IsValue 375 ∧
    (∃ d : Nat,
      (packSamples FloatType.float 1024 (7 / 8) (fun _ => 575) 1024 0)[7]?
        = some (Field.u16 (some d)) ∧
      (d : ℚ) ≤ 13107 + 1 / 2 ^ 33 ∧ (13107 : ℚ) - 1 - 1 / 2 ^ 33 < d) ∧
    (packSamples FloatType.float 1024 (7 / 8) (fun _ => 1375) 1024 0)[7]?
      = some (Field.u16 (some 65535)) ∧
    (packSamples FloatType.float 1024 (7 / 8) (fun _ => 375) 1024 0)[7]?
      = some (Field.u16 (some 0)) := by
  have hr : |(7 / 8 : ℚ)| ≤ 1 := by rw [abs_le]; constructor <;> norm_num
  have hrv : binary64.IsValue (7 / 8) :=
    ⟨7, -3, by decide, by decide, by decide, by norm_num⟩
  have htop : binary64.IsValue 1375 :=
    ⟨1375, 0, by decide, by decide, by decide, by norm_num⟩
  have hbot : binary64.IsValue 375 :=
    ⟨375, 0, by decide, by decide, by decide, by norm_num⟩
  refine ⟨by decide, hr, hrv, htop, hbot, ?_, ?_, ?_⟩
  · obtain ⟨d, hd, hd1, hd2⟩ := (C3_stored_value_truncated FloatType.float (7 / 8)
      (fun _ => 575) 7 (by decide) hr (by norm_num) (by norm_num)).1
    refine ⟨d, hd, ?_, ?_⟩
    · have e : (((575 : ℚ) / 1000 - 7 / 8) + 1 / 2) * 65535 = 13107 := by norm_num
      rw [e] at hd1
      exact hd1
    · have e : (((575 : ℚ) / 1000 - 7 / 8) + 1 / 2) * 65535 = 13107 := by norm_num
      rw [e] at hd2
      exact hd2
  · exact ((C3_stored_value_truncated FloatType.float (7 / 8) (fun _ => 1375) 7 (by decide) hr
      (by norm_num) (by norm_num)).2 hrv htop).2 (by norm_num)
  · exact ((C3_stored_value_truncated FloatType.float (7 / 8) (fun _ => 375) 7 (by decide) hr
      (by norm_num) (by norm_num)).2 hrv hbot).1 (by norm_num)

/-- C4, counterexample. Input range `0.5 - 2 ^ (-16)` V and a sample of
`16384251 * 2 ^ (-46)` mV, both `float` values, the sample inside the window:
`SaveWaveforms` stores 0, and the decoded voltage `0 / 65535 + r - 0.5` differs
from `s / 1000` by more than one quantization step `1 / 65535`. -/
theorem C4_round_trip_counterexample :
    binary32.IsValue (32767 / 65536) ∧ binary32.IsValue (16384251 / 70368744177664) ∧
    (32767 / 65536 : ℚ) - 1 / 2 ≤ 16384251 / 70368744177664 / 1000 ∧
    (16384251 / 70368744177664 / 1000 : ℚ) ≤ 32767 / 65536 + 1 / 2 ∧
    (∀ ty, (packSamples ty 1024 (32767 / 65536)
        (fun _ => 16384251 / 70368744177664) 1024 0)[0]? = some (Field.u16 (some 0))) ∧
    1 / 65535 <
      |((0 : Nat) : ℚ) / 65535 + 32767 / 65536 - 1 / 2 - 16384251 / 70368744177664 / 1000| := by
  refine ⟨⟨32767, -16, by decide, by decide, by decide, by norm_num⟩,
    ⟨16384251, -46, by decide, by decide, by decide, by norm_num⟩,
    by norm_num, by norm_num, ?_, ?_⟩
  · intro ty
    rw [packSamples_plain_get ty _ _ 0 (by decide), storeSample_first_step]
  · rw [lt_abs]
    right
    norm_num

/-- C4, amended. In non-cascading mode (depth 1024), for an input range `r`
with `|r| ≤ 1` and every bin `j` whose sample `s = w j` (in mV) satisfies
`r - 0.5 ≤ s / 1000 ≤ r + 0.5`, a 16-bit value `d` is stored for the bin and
the decoded voltage `d / 65535 + r - 0.5` differs from `s / 1000` by less than
`(1 + 2 ^ (-33)) / 65535`: one quantization step and the rounding error of
the evaluation in `double`. -/
theorem C4_round_trip_error (ty : FloatType) (r : ℚ) (w : Nat → ℚ) (j : Nat)
    (hj : j < 1024) (hr : |r| ≤ 1)
    (hlo : r - 1 / 2 ≤ w j / 1000) (hhi : w j / 1000 ≤ r + 1 / 2) :
    ∃ d : Nat, (packSamples ty 1024 r w 1024 0)[j]? = some (Field.u16 (some d)) ∧
      |(d : ℚ) / 65535 + r - 1 / 2 - w j / 1000| < (1 + 1 / 2 ^ 33) / 65535 := by
  obtain ⟨d, hd, hd1, hd2⟩ := storeSample_bounds r (w j) hr hlo hhi
  refine ⟨d, by rw [packSamples_plain_get ty r w j hj, hd], ?_⟩
  have e : (d : ℚ) / 65535 + r - 1 / 2 - w j / 1000
      = ((d : ℚ) - (w j / 1000 - r + 1 / 2) * 65535) / 65535 := by ring
  rw [e, abs_lt]
  constructor
  · rw [lt_div_iff₀ (by norm_num)]
    linarith
  · rw [div_lt_div_iff_of_pos_right (by norm_num)]
    linarith

/-- Witness of C4 (amended): input range 0.875 V and bin 7 holding 575 mV. -/
theorem C4_round_trip_error_witness :
    (7 < 1024) ∧ |(7 / 8 : ℚ)| ≤ 1 ∧ ((7 : ℚ) / 8 - 1 / 2 ≤ 575 / 1000) ∧
    ((575 : ℚ) / 1000 ≤ 7 / 8 + 1 / 2) ∧
    ∃ d : Nat,
      (packSamples FloatType.float 1024 (7 / 8) (fun _ => 575) 1024 0)[7]?
        = some (Field.u16 (some d)) ∧
      |(d : ℚ) / 65535 + 7 / 8 - 1 / 2 - 575 / 1000| < (1 + 1 / 2 ^ 33) / 65535 :=
  ⟨by decide, by rw [abs_le]; constructor <;> norm_num, by norm_num, by norm_num,
    C4_round_trip_error FloatType.float (7 / 8) (fun _ => 575) 7 (by decide)
      (by rw [abs_le]; constructor <;> norm_num) (by norm_num) (by norm_num)⟩

/-- C9, counterexample. In cascading mode with input range 0.875 V and every
bin at 575 mV, the exact mean of bins 0 and 1 is 575 mV and its exact scaling
is the integer 13107, but the first value `SaveWaveforms` writes after the
channel tag is 13106, for either element type of the waveform. With `float`
elements, input range 0.25 V and the bins of `unevenPair`, the exact scaling
of the exact mean lies between 43996 and 43997 and the conversion of
non-cascading mode stores 43996 for the exact mean, but the value written is
43997. -/
theorem C9_exact_mean_counterexample :
    ((((575 : ℚ) + 575) / 2 / 1000 - 7 / 8) + 1 / 2) * 65535 = 13107 ∧
    (∀ ty, (packEventChannel
        { freshGlobals 2 with
          waveformType := ty, m_waveDepth := 2048, m_inputRange := 7 / 8,
          m_waveform := fun _ _ _ => 575 } 0 0)[1]?
      = some (Field.u16 (some 13106))) ∧
    (43996 : ℚ) < (((unevenPair 0 + unevenPair 1) / 2 / 1000 - 1 / 4) + 1 / 2) * 65535 ∧
    (((unevenPair 0 + unevenPair 1) / 2 / 1000 - 1 / 4) + 1 / 2) * 65535 < 43997 ∧
    storeSample (1 / 4) ((unevenPair 0 + unevenPair 1) / 2) = some 43996 ∧
    (packSamples FloatType.float 2048 (1 / 4) unevenPair 2048 0)[0]?
      = some (Field.u16 (some 43997)) := by
  have h0 : unevenPair 0 = 7482989 / 16384 := rfl
  have h1 : unevenPair 1 = 12647693 / 32768 := rfl
  refine ⟨by norm_num, ?_, ?_, ?_, ?_, ?_⟩
  · intro ty
    rw [packEventChannel]
    simp only [List.getElem?_cons_succ]
    rw [packSamples_cascaded_full, List.getElem?_map, List.getElem?_range (by decide)]
    simp only [Option.map_some', Nat.mul_zero, Nat.zero_add]
    rw [storePair_fifth]
  · rw [h0, h1]; norm_num
  · rw [h0, h1]; norm_num
  · have e : (unevenPair 0 + unevenPair 1) / 2 = 27613671 / 65536 := by
      rw [h0, h1]; norm_num
    rw [e, storeSample_exact_mean]
  · rw [packSamples_cascaded_full, List.getElem?_map, List.getElem?_range (by decide)]
    simp only [Option.map_some', Nat.mul_zero, Nat.zero_add]
    rw [h0, h1, storePair_rounded_sum]

/-- C9, amended. In cascading mode (depth 2048), what `SaveWaveforms` writes
for a channel is the channel tag followed by exactly 1024 16-bit values. The
`j`-th value is computed from bins `2j` and `2j + 1`: their sum, formed in the
element type of the waveform, is divided by 2000, reduced by the input range,
raised by 0.5 and multiplied by 65535 in `double`, and the fraction is
discarded. When `|r| ≤ 1` and the exact mean `m = (w[2j] + w[2j+1]) / 2` lies
in the window, the value `d` satisfies `x - 1 - 2 ^ (-7) < d ≤ x + 2 ^ (-7)`
for the exact scaling `x = ((m / 1000 - r) + 0.5) * 65535` of the exact mean.
The block does not depend on any bin beyond 2047. -/
theorem C9_cascaded_pairs_averaged (g : Globals) (b i : Nat) (h : g.m_waveDepth = 2048) :
    ∃ vals : List (Option Nat),
      packEventChannel g b i = Field.tag (channelTag (i + 1)) :: vals.map Field.u16 ∧
      vals.length = 1024 ∧
      (∀ j, j < 1024 →
        vals[j]? = some (storePair g.waveformType g.m_inputRange
          (g.m_waveform b i (2 * j)) (g.m_waveform b i (2 * j + 1)))) ∧
      (∀ j, j < 1024 → |g.m_inputRange| ≤ 1 →
        g.m_inputRange - 1 / 2
          ≤ (g.m_waveform b i (2 * j) + g.m_waveform b i (2 * j + 1)) / 2 / 1000 →
        (g.m_waveform b i (2 * j) + g.m_waveform b i (2 * j + 1)) / 2 / 1000
          ≤ g.m_inputRange + 1 / 2 →
        ∃ d : Nat, vals[j]? = some (some d) ∧
          (d : ℚ) ≤ (((g.m_waveform b i (2 * j) + g.m_waveform b i (2 * j + 1)) / 2 / 1000
              - g.m_inputRange) + 1 / 2) * 65535 + 1 / 2 ^ 7 ∧
          (((g.m_waveform b i (2 * j) + g.m_waveform b i (2 * j + 1)) / 2 / 1000
              - g.m_inputRange) + 1 / 2) * 65535 - 1 - 1 / 2 ^ 7 < d) ∧
      (∀ wf : Nat → Nat → Nat → ℚ,
        (∀ k, k ≤ 2047 → wf b i k = g.m_waveform b i k) →
        packEventChannel { g with m_waveform := wf } b i = packEventChannel g b i) := by
  have hget : ∀ j, j < 1024 →
      ((List.range 1024).map (fun j => storePair g.waveformType g.m_inputRange
        (g.m_waveform b i (2 * j)) (g.m_waveform b i (2 * j + 1))))[j]?
      = some (storePair g.waveformType g.m_inputRange
          (g.m_waveform b i (2 * j)) (g.m_waveform b i (2 * j + 1))) := by
    intro j hj
    rw [List.getElem?_map, List.getElem?_range hj]
    rfl
  refine ⟨(List.range 1024).map (fun j => storePair g.waveformType g.m_inputRange
      (g.m_waveform b i (2 * j)) (g.m_waveform b i (2 * j + 1))), ?_, ?_, hget, ?_, ?_⟩
  · rw [packEventChannel, h, packSamples_cascaded_full, List.map_map]
    rfl
  · rw [List.length_map, List.length_range]
  · intro j hj hr hlo hhi
    obtain ⟨d, hd, hd1, hd2⟩ := storePair_bounds g.waveformType g.m_inputRange
      (g.m_waveform b i (2 * j)) (g.m_waveform b i (2 * j + 1)) hr hlo hhi
    exact ⟨d, by rw [hget j hj, hd], hd1, hd2⟩
  · intro wf hwf
    simp only [packEventChannel, h, packSamples_cascaded_full]
    refine congrArg _ (List.map_congr_left ?_)
    intro k hk
    have hk2 : k < 1024 := List.mem_range.mp hk
    rw [hwf (2 * k) (by omega), hwf (2 * k + 1) (by omega)]

/-- Witness of C9 (amended): cascading mode, input range 0.875 V, the even
bins at 570 mV and the odd bins at 580 mV, `float` elements: channel 2 of
board slot 0 holds 1024 values, and value 5, whose exact mean scales to 13107,
is 13106 or 13107. -/
theorem C9_cascaded_pairs_averaged_witness :
    cascadedGlobals.m_waveDepth = 2048 ∧
    ∃ vals : List (Option Nat),
      packEventChannel cascadedGlobals 0 2 = Field.tag (channelTag 3) :: vals.map Field.u16 ∧
      vals.length = 1024 ∧
      ∃ d : Nat, vals[5]? = some (some d) ∧
        (d : ℚ) ≤ 13107 + 1 / 2 ^ 7 ∧ (13107 : ℚ) - 1 - 1 / 2 ^ 7 < d := by
  refine ⟨rfl, ?_⟩
  obtain ⟨vals, h1, h2, _, h4, _⟩ := C9_cascaded_pairs_averaged cascadedGlobals 0 2 rfl
  refine ⟨vals, h1, h2, ?_⟩
  have hr : cascadedGlobals.m_inputRange = 7 / 8 := rfl
  have hw0 : cascadedGlobals.m_waveform 0 2 (2 * 5) = 570 := by
    norm_num [cascadedGlobals]
  have hw1 : cascadedGlobals.m_waveform 0 2 (2 * 5 + 1) = 580 := by
    norm_num [cascadedGlobals]
  have h5 := h4 5 (by decide)
  rw [hr, hw0, hw1] at h5
  obtain ⟨d, hd, hd1, hd2⟩ := h5 (by rw [abs_le]; constructor <;> norm_num) (by norm_num)
    (by norm_num)
  have e : ((((570 : ℚ) + 580) / 2 / 1000 - 7 / 8) + 1 / 2) * 65535 = 13107 := by norm_num
  rw [e] at hd1 hd2
  exact ⟨d, hd, hd1, hd2⟩

/-! ## Claims on the size of the packed record -/

/-- C10. For an open file, a depth of 1024 or 2048, and a scratch buffer that
is either not yet sized or was sized for the present board count and depth:
`SaveWaveforms` packs `24 + nB * (8 + 4 * (4 + 2 * 1024))` bytes, plus
`4 + nB * (4 + 4 * (4 + 4 * 1024))` when the serial is 1; `buffer_size` is
`4 + nB * (4 + 4 * (4 + 4 * depth)) + 24 + nB * (8 + 4 * (4 + 2 * depth))`; the
size never exceeds `buffer_size`, so the assertion holds; and the two are equal
exactly when the serial is 1 and the depth is 1024 or `nB = 0`. -/
theorem C10_packed_size_fits (drs : DRS) (fd n : Int) (g : Globals) (hfd : fd ≠ 0)
    (hd : g.m_waveDepth = 1024 ∨ g.m_waveDepth = 2048)
    (hb : g.buffer_size = 0 ∨ g.buffer_size = scratchSize g.m_nBoards g.m_waveDepth) :
    (SaveWaveforms drs fd n g).size
        = 24 + g.m_nBoards * (8 + 4 * (4 + 2 * 1024))
          + (if g.m_evSerial = 1 then 4 + g.m_nBoards * (4 + 4 * (4 + 4 * 1024)) else 0) ∧
    (SaveWaveforms drs fd n g).g.buffer_size
        = 4 + g.m_nBoards * (4 + 4 * (4 + 4 * g.m_waveDepth))
          + 24 + g.m_nBoards * (8 + 4 * (4 + 2 * g.m_waveDepth)) ∧
    (SaveWaveforms drs fd n g).size ≤ (SaveWaveforms drs fd n g).g.buffer_size ∧
    (SaveWaveforms drs fd n g).aborted = false ∧
    ((SaveWaveforms drs fd n g).size = (SaveWaveforms drs fd n g).g.buffer_size ↔
      g.m_evSerial = 1 ∧ (g.m_waveDepth = 1024 ∨ g.m_nBoards = 0)) := by
  exact SaveWaveforms_sized drs fd n g hfd hd hb

/-- Witness of C10: the first record of a one-board chain at depth 1024 fills
the scratch buffer of 24648 bytes exactly. -/
theorem C10_packed_size_fits_witness :
    (3 : Int) ≠ 0 ∧ (freshGlobals 1).m_waveDepth = 1024 ∧ (freshGlobals 1).buffer_size = 0 ∧
    (SaveWaveforms chainOfTwo 3 24648 (freshGlobals 1)).size = 24648 ∧
    (SaveWaveforms chainOfTwo 3 24648 (freshGlobals 1)).g.buffer_size = 24648 ∧
    (SaveWaveforms chainOfTwo 3 24648 (freshGlobals 1)).aborted = false := by
  have h := C10_packed_size_fits chainOfTwo 3 24648 (freshGlobals 1) (by decide)
    (Or.inl rfl) (Or.inl rfl)
  exact ⟨by decide, rfl, rfl, h.1, h.2.1, h.2.2.2.1⟩

/-! ## Claims on the board serial of a record -/

/-- C5, evaluated at a failing input. In a chain of two boards with serial
numbers 2001 and 2002, the record written for board 1 (`ReadWaveforms` with
`m_board = 1`, then `SaveWaveforms`, event serial 2) has exactly one `"B#"` tag
and the 16-bit field after it holds 2001, the serial number of board 0, not
the serial number 2002 of board 1. -/
theorem C5_second_board_record_has_master_serial :
    (chainOfTwo.GetBoard 1).GetBoardSerialNumber = 2002 ∧
    serialFields (SaveWaveforms chainOfTwo 3 8240
        (ReadWaveforms chainOfTwo noon { freshGlobals 2 with m_board := 1 })).buffer
      = [some 2001] := by
  refine ⟨by decide, ?_⟩
  rw [record_carries_master_serial chainOfTwo noon 3 8240 _ (by decide) (by decide)]
  decide

/-! ## Claims on the calibration block -/

/-- C6, counterexample. Two calls on an open file, starting with event serial
1, where the first `write` is short (returns 0 of 24648 bytes): the buffer of
the second call starts with `"TIME"` again, not with `"EHDR"`. -/
theorem C6_short_write_counterexample :
    (saveSequence 3 [(chainOfTwo, 0, freshGlobals 1), (chainOfTwo, 24648, freshGlobals 1)] 1 0).map
        (fun r => (r.size, r.ret, r.buffer.head?))
      = [(24648, -1, some (Field.tag "TIME")), (24648, 1, some (Field.tag "TIME"))] := by
  have h1 := SaveWaveforms_sized chainOfTwo 3 0
    { freshGlobals 1 with m_evSerial := 1, buffer_size := 0 } (by decide) (Or.inl rfl) (Or.inl rfl)
  obtain ⟨hs1, hb1, -, ha1, -⟩ := h1
  have hr1 := SaveWaveforms_ret chainOfTwo 3 0
    { freshGlobals 1 with m_evSerial := 1, buffer_size := 0 } (by decide)
  rw [ha1, hs1] at hr1
  have hr1 : (SaveWaveforms chainOfTwo 3 0
      { freshGlobals 1 with m_evSerial := 1, buffer_size := 0 }).ret = -1 := by
    rw [hr1]; decide
  have he1 := SaveWaveforms_serial chainOfTwo 3 0
    { freshGlobals 1 with m_evSerial := 1, buffer_size := 0 }
  rw [hr1] at he1
  have he1 : (SaveWaveforms chainOfTwo 3 0
      { freshGlobals 1 with m_evSerial := 1, buffer_size := 0 }).g.m_evSerial = 1 := by
    rw [he1]; rfl
  have hb1 : (SaveWaveforms chainOfTwo 3 0
      { freshGlobals 1 with m_evSerial := 1, buffer_size := 0 }).g.buffer_size = 24648 := by
    rw [hb1]; rfl
  have hs1 : (SaveWaveforms chainOfTwo 3 0
      { freshGlobals 1 with m_evSerial := 1, buffer_size := 0 }).size = 24648 := by
    rw [hs1]; rfl
  have h2 := SaveWaveforms_sized chainOfTwo 3 24648
    { freshGlobals 1 with m_evSerial := 1, buffer_size := 24648 } (by decide) (Or.inl rfl)
    (Or.inr rfl)
  obtain ⟨hs2, -, -, ha2, -⟩ := h2
  have hs2 : (SaveWaveforms chainOfTwo 3 24648
      { freshGlobals 1 with m_evSerial := 1, buffer_size := 24648 }).size = 24648 := by
    rw [hs2]; rfl
  have hr2 := SaveWaveforms_ret chainOfTwo 3 24648
    { freshGlobals 1 with m_evSerial := 1, buffer_size := 24648 } (by decide)
  rw [ha2, hs2] at hr2
  have hr2 : (SaveWaveforms chainOfTwo 3 24648
      { freshGlobals 1 with m_evSerial := 1, buffer_size := 24648 }).ret = 1 := by
    rw [hr2]; decide
  rw [saveSequence, ha1, if_neg (by decide), he1, hb1, saveSequence, ha2, if_neg (by decide),
    saveSequence]
  rw [List.map_cons, List.map_cons, List.map_nil, hs1, hr1, hs2, hr2,
    SaveWaveforms_buffer _ _ _ _ (show (3 : Int) ≠ 0 by decide),
    SaveWaveforms_buffer _ _ _ _ (show (3 : Int) ≠ 0 by decide), packBuffer_head, packBuffer_head]
  rfl

/-- C6, amended. For every sequence of fewer than `2 ^ 31 - 1` calls of
`SaveWaveforms` on one open file that starts with event serial 1, whatever each
`write` returns: the buffer of a call starts with `"TIME"` when no earlier call
had a full write, and with `"EHDR"` otherwise. -/
theorem C6_time_block_until_first_full_write (fd : Int)
    (calls : List (DRS × Int × Globals)) (buffer_size k : Nat) (r : SaveResult)
    (hfd : fd ≠ 0) (hlen : calls.length < 2147483647)
    (hk : (saveSequence fd calls 1 buffer_size)[k]? = some r) :
    r.buffer.head? = some (Field.tag
      (if fullWrites ((saveSequence fd calls 1 buffer_size).take k) = 0
        then "TIME" else "EHDR")) := by
  have h := saveSequence_head fd hfd calls 1 buffer_size k r (by decide) (by omega) hk
  rw [h]
  congr 2
  have e : ((1 : Int) + (fullWrites ((saveSequence fd calls 1 buffer_size).take k) : Int) = 1)
      ↔ fullWrites ((saveSequence fd calls 1 buffer_size).take k) = 0 := by omega
  simp only [e]

/-- Witness of C6 (amended): two calls on an open file, both with full
writes (24648 bytes, then 8240 bytes); the buffer of the second call starts
with `"EHDR"`. -/
theorem C6_time_block_until_first_full_write_witness :
    (3 : Int) ≠ 0 ∧
    [(chainOfTwo, (24648 : Int), freshGlobals 1), (chainOfTwo, 8240, freshGlobals 1)].length
      < 2147483647 ∧
    ∃ r, (saveSequence 3
        [(chainOfTwo, 24648, freshGlobals 1), (chainOfTwo, 8240, freshGlobals 1)] 1 0)[1]?
        = some r ∧
      r.buffer.head? = some (Field.tag "EHDR") := by
  have h1 := SaveWaveforms_sized chainOfTwo 3 24648
    { freshGlobals 1 with m_evSerial := 1, buffer_size := 0 } (by decide) (Or.inl rfl) (Or.inl rfl)
  obtain ⟨hs1, hb1, -, ha1, -⟩ := h1
  have hr1 := SaveWaveforms_ret chainOfTwo 3 24648
    { freshGlobals 1 with m_evSerial := 1, buffer_size := 0 } (by decide)
  rw [ha1, hs1] at hr1
  have hr1 : (SaveWaveforms chainOfTwo 3 24648
      { freshGlobals 1 with m_evSerial := 1, buffer_size := 0 }).ret = 1 := by
    rw [hr1]; decide
  have he1 := SaveWaveforms_serial chainOfTwo 3 24648
    { freshGlobals 1 with m_evSerial := 1, buffer_size := 0 }
  rw [hr1] at he1
  have he1 : (SaveWaveforms chainOfTwo 3 24648
      { freshGlobals 1 with m_evSerial := 1, buffer_size := 0 }).g.m_evSerial = 2 := by
    rw [he1]; decide
  have hb1 : (SaveWaveforms chainOfTwo 3 24648
      { freshGlobals 1 with m_evSerial := 1, buffer_size := 0 }).g.buffer_size = 24648 := by
    rw [hb1]; rfl
  have hseq : saveSequence 3
      [(chainOfTwo, 24648, freshGlobals 1), (chainOfTwo, 8240, freshGlobals 1)] 1 0
      = SaveWaveforms chainOfTwo 3 24648 { freshGlobals 1 with m_evSerial := 1, buffer_size := 0 }
        :: saveSequence 3 [(chainOfTwo, 8240, freshGlobals 1)] 2 24648 := by
    rw [saveSequence, ha1, if_neg (by decide), he1, hb1]
  have hk : (saveSequence 3
      [(chainOfTwo, 24648, freshGlobals 1), (chainOfTwo, 8240, freshGlobals 1)] 1 0)[1]?
      = some (SaveWaveforms chainOfTwo 3 8240
          { freshGlobals 1 with m_evSerial := 2, buffer_size := 24648 }) := by
    rw [hseq, saveSequence, List.getElem?_cons_succ, List.getElem?_cons_zero]
  have h := C6_time_block_until_first_full_write 3 _ 0 1 _ (by decide) (by decide) hk
  have hfw : fullWrites ((saveSequence 3
      [(chainOfTwo, 24648, freshGlobals 1), (chainOfTwo, 8240, freshGlobals 1)] 1 0).take 1)
      = 1 := by
    rw [hseq, List.take_succ_cons, List.take_zero, fullWrites_cons, if_pos hr1]
    rfl
  rw [hfw] at h
  exact ⟨by decide, by decide, _, hk, h⟩

/-! ## Claims on the event loop -/

/-- C1, evaluated at a failing input. In a chain of two boards where the
master is busy again when board 1 is about to be read, the event counter is
the same after the pass as before (0), but `SaveWaveforms` has been called for
board 0 in this pass. -/
theorem C1_spurious_trigger_after_first_board :
    eventPass busyBeforeSecondBoard 1 loopStart = some (false,
      { i := 0, polls := 3, ticks := 0,
        log := [Action.StartDomino 1, Action.StartDomino 0,
          Action.ReadWaveforms 0, Action.SaveWaveforms 0] }) := by
  decide

end DrsLog
